import Mathlib

/-!
Verification of the knowledge-retrieval engine of the quickvetpro backend.

The Python sources embedded here (shallowly, as pure Lean functions) are:
- app/services/mcp_knowledge_client.py   (mode selector)
- app/services/structural_knowledge_service.py
  (structural extraction, oracle-response parsing, bounded navigation)
- app/services/knowledge_service.py
  (chunking, batch embedding with cache, vector ingestion)
- app/infra/cache.py (embedding-cache key normalisation)

External effects are made explicit: the database is a value threaded through
the functions, the decision oracle is a function from the call index to the
free-text response (wrapped in Except to model a raised exception), and the
embedding oracle is a function from the request position and text to the
embedding string.
-/

set_option maxRecDepth 40000

namespace QuickVet

/-! ## Python string primitives

The Python code manipulates `str` values with `lower`, `upper`, `strip`,
`split`, `replace`, `in` (substring) and `startswith`.  These are modelled
on `List Char`.  `lower`/`upper` are modelled for ASCII plus the accented
Latin letters that occur in this code base (Portuguese text); Python's
`str.lower` agrees with this model on all inputs built from those
characters. -/

/-- Python `str.isspace` characters relevant here (ASCII whitespace, as in
the `\s` regex class for these texts). -/
def pyIsSpace (c : Char) : Bool :=
  c == ' ' || c == '\t' || c == '\n' || c == '\r' ||
  c == Char.ofNat 11 || c == Char.ofNat 12

/-- Python `str.lower`, character level: ASCII letters plus the accented
uppercase letters used in the Portuguese keywords and patterns. -/
def pyLowerChar (c : Char) : Char :=
  if c = 'Á' then 'á' else if c = 'À' then 'à' else if c = 'Â' then 'â'
  else if c = 'Ã' then 'ã' else if c = 'Ç' then 'ç' else if c = 'É' then 'é'
  else if c = 'Ê' then 'ê' else if c = 'Í' then 'í' else if c = 'Ó' then 'ó'
  else if c = 'Ô' then 'ô' else if c = 'Õ' then 'õ' else if c = 'Ú' then 'ú'
  else c.toLower

/-- Python `str.upper`, character level (inverse of `pyLowerChar` on the
characters used here). -/
def pyUpperChar (c : Char) : Char :=
  if c = 'á' then 'Á' else if c = 'à' then 'À' else if c = 'â' then 'Â'
  else if c = 'ã' then 'Ã' else if c = 'ç' then 'Ç' else if c = 'é' then 'É'
  else if c = 'ê' then 'Ê' else if c = 'í' then 'Í' else if c = 'ó' then 'Ó'
  else if c = 'ô' then 'Ô' else if c = 'õ' then 'Õ' else if c = 'ú' then 'Ú'
  else c.toUpper

def pyLowerL (s : List Char) : List Char := s.map pyLowerChar

def pyUpperL (s : List Char) : List Char := s.map pyUpperChar

/-- Python `s.startswith(p)` (first argument is the prefix `p`). -/
def startsWithL : List Char → List Char → Bool
  | [], _ => true
  | _ :: _, [] => false
  | p :: ps, s :: ss => p == s && startsWithL ps ss

/-- Python `needle in hay` (substring containment). -/
def hasSubstrL (needle : List Char) : List Char → Bool
  | [] => startsWithL needle []
  | c :: rest => startsWithL needle (c :: rest) || hasSubstrL needle rest

/-- Python `str.strip()` (drop leading and trailing whitespace). -/
def pyStripL (s : List Char) : List Char :=
  ((s.dropWhile pyIsSpace).reverse.dropWhile pyIsSpace).reverse

/-- Python `s.split(sep)` for a single-character separator: keeps empty
fields, so the result is always non-empty. -/
def pySplitCharL (sep : Char) : List Char → List (List Char)
  | [] => [[]]
  | c :: rest =>
    match pySplitCharL sep rest with
    | [] => [[]]
    | cur :: parts =>
      if c == sep then [] :: cur :: parts else (c :: cur) :: parts

/-- Scan for `s.replace(needle, "")`: on a match at the head, the head and
the following `needle.length - 1` characters are consumed without being
emitted (the `skip` counter), which is the left-to-right deletion of every
occurrence, phrased with structural recursion. -/
def pyDeleteAux (needle : List Char) : List Char → Nat → List Char
  | [], _ => []
  | _ :: rest, skip + 1 => pyDeleteAux needle rest skip
  | c :: rest, 0 =>
    if startsWithL needle (c :: rest) then
      pyDeleteAux needle rest (needle.length - 1)
    else
      c :: pyDeleteAux needle rest 0

/-- Python `s.replace(needle, "")` for a non-empty needle (the needles in
this code base, `ACTION:` and `TARGET:`, are non-empty literals). -/
def pyDeleteL (needle : List Char) (s : List Char) : List Char :=
  match needle with
  | [] => s
  | _ :: _ => pyDeleteAux needle s 0

/-- Number of words of Python `s.split()` (split on whitespace runs,
empty fields dropped).  The boolean records whether the previous character
was inside a word. -/
def pyWordCountAux : List Char → Bool → Nat
  | [], _ => 0
  | c :: rest, inWord =>
    if pyIsSpace c then pyWordCountAux rest false
    else (if inWord then 0 else 1) + pyWordCountAux rest true

def pyWordCount (s : String) : Nat := pyWordCountAux s.data false

/-- First word of Python `s.split()` (the code only evaluates it on strings
that contain a space and are stripped, so a word exists there). -/
def pyFirstWordL (s : List Char) : List Char :=
  (s.dropWhile pyIsSpace).takeWhile (fun c => !pyIsSpace c)

def pyLower (s : String) : String := ⟨pyLowerL s.data⟩
def pyUpper (s : String) : String := ⟨pyUpperL s.data⟩
def pyStrip (s : String) : String := ⟨pyStripL s.data⟩
def hasSubstr (needle hay : String) : Bool := hasSubstrL needle.data hay.data

/-! ## Mode selector (`MCPKnowledgeClient.detect_best_mode`,
app/services/mcp_knowledge_client.py lines 60-88) -/

/-- `RetrievalMode` enum from mcp_knowledge_client.py. -/
inductive RetrievalMode where
  | vector
  | structural
  | auto
deriving DecidableEq, Repr

/-- `STRUCTURAL_KEYWORDS` from mcp_knowledge_client.py lines 60-66. -/
def STRUCTURAL_KEYWORDS : List String :=
  ["tabela", "anexo", "apêndice", "quadro", "figura",
   "protocolo", "procedimento", "passo a passo",
   "dose", "dosagem", "cálculo", "fórmula",
   "valor", "referência", "limite", "intervalo",
   "seção", "capítulo", "página"]

/-- `MCPKnowledgeClient.detect_best_mode` (lines 73-88): keyword substring
test on the lowercased query, then the more-than-ten-words test, else
vector. -/
def detect_best_mode (query : String) : RetrievalMode :=
  let ql := pyLowerL query.data
  if STRUCTURAL_KEYWORDS.any (fun kw => hasSubstrL kw.data ql) then
    RetrievalMode.structural
  else if pyWordCount query > 10 then
    RetrievalMode.structural
  else
    RetrievalMode.vector

/-! ## Decision-oracle response parsing
(`StructuralKnowledgeService._navigation_step`,
app/services/structural_knowledge_service.py lines 602-661)

The prompt construction and the LLM call itself are external: the oracle is
modelled as the free-text response, and `parseDecision` is the parsing code
of lines 645-661. -/

/-- Tagged navigation action the parser produces. -/
inductive NavAction where
  | navigate
  | follow_reference
  | done
deriving DecidableEq, Repr

/-- Parsed decision: `{"action": ..., "target": ...}`. -/
structure Decision where
  action : NavAction
  target : String
deriving DecidableEq, Repr

/-- Loop body of lines 649-659: fold over the lines of the response,
updating `action` and `target`. -/
def parseDecisionLines : List (List Char) → NavAction → List Char → Decision
  | [], act, tgt => ⟨act, ⟨tgt⟩⟩
  | line :: rest, act, tgt =>
    if startsWithL "ACTION:".data line then
      let actionText := pyStripL (pyDeleteL "ACTION:".data line)
      let act2 :=
        if hasSubstrL "NAVIGATE".data actionText then NavAction.navigate
        else if hasSubstrL "FOLLOW_REFERENCE".data actionText then
          NavAction.follow_reference
        else NavAction.done
      parseDecisionLines rest act2 tgt
    else if startsWithL "TARGET:".data line then
      parseDecisionLines rest act (pyStripL (pyDeleteL "TARGET:".data line))
    else
      parseDecisionLines rest act tgt

/-- Parser of lines 645-661: `action` starts as `DONE`, `target` as the
empty string, then each line of `text.split(chr 10)` is examined. -/
def parseDecision (text : String) : Decision :=
  parseDecisionLines (pySplitCharL '\n' text.data) NavAction.done []

/-! ## Node lookup (`_get_node_by_title` lines 663-684,
`_get_node_by_reference` lines 686-700)

The `structural_nodes` table is a list of rows; `LIMIT 1` picks the first
matching row in table order.  `LIKE` with a pattern of the shape
`percent-text-percent` is modelled as substring containment (no claim
instantiates a lookup string containing a LIKE wildcard). -/

/-- Row of `structural_nodes` with the columns navigation reads. -/
structure NodeRow where
  title : String
  node_type : String
  content : String
  page_start : Nat
  references : List String
deriving DecidableEq, Repr

/-- `_get_node_by_title`: exact case-insensitive title match first, else
the first row whose lowercased title has the lowercased argument as a
substring. -/
def getNodeByTitle (nodes : List NodeRow) (title : String) : Option NodeRow :=
  match nodes.find? (fun n => pyLowerL n.title.data == pyLowerL title.data) with
  | some n => some n
  | none =>
    nodes.find? (fun n => hasSubstrL (pyLowerL title.data) (pyLowerL n.title.data))

/-- `_get_node_by_reference`: first row whose uppercased title contains the
uppercased reference, or whose `node_type` equals the lowercased first word
of the reference when the reference contains a space (else the literal
`appendix`). -/
def getNodeByReference (nodes : List NodeRow) (reference : String) : Option NodeRow :=
  let refU := pyUpperL reference.data
  let typeArg : List Char :=
    if refU.contains ' ' then pyLowerL (pyFirstWordL refU) else "appendix".data
  nodes.find? (fun n =>
    hasSubstrL refU (pyUpperL n.title.data) || n.node_type.data == typeArg)

/-! ## Bounded navigation (`StructuralKnowledgeService.navigate`,
lines 507-600) -/

/-- Entry of the `content_found` list built at lines 565-586. -/
structure ContentItem where
  title : String
  node_type : String
  content : String
  page : Nat
deriving DecidableEq, Repr

/-- Dictionary returned at lines 588-593. -/
structure NavResult where
  query : String
  navigation_path : List String
  content : List ContentItem
  steps : Nat
deriving DecidableEq, Repr

/-- Row of the toc overview join at lines 528-532 (only presence matters to
the control flow; the text goes into the oracle prompt). -/
structure TocRow where
  file_name : String
  toc_text : Option String
deriving DecidableEq, Repr

/-- Durable store contents navigation reads. -/
structure NavStore where
  tocs : List TocRow
  nodes : List NodeRow
deriving Repr

/-- Single quote character, to build Python list reprs. -/
def sq : String := ⟨[Char.ofNat 39]⟩

/-- Python `repr` of a list of plain strings, as interpolated by the
f-string at line 574. -/
def pyReprStrList (xs : List String) : String :=
  "[" ++ String.intercalate ", " (xs.map (fun s => sq ++ s ++ sq)) ++ "]"

/-- Content entry appended at lines 565-570 / 581-586 (content truncated to
2000 characters). -/
def mkContentItem (n : NodeRow) : ContentItem :=
  ⟨n.title, n.node_type, ⟨n.content.data.take 2000⟩, n.page_start⟩

/-- Loop of lines 548-586.  `fuel` is the number of remaining iterations of
`for step in range(max_steps)`, `idx` the index of the next oracle call.
The oracle maps the call index to the free-text response, or raises
(`Except.error`), which the Python code does not catch.  Returns the final
`navigation_log`, `content_found` and the number of oracle calls made. -/
def navLoop (nodes : List NodeRow) (oracle : Nat → Except Unit String) :
    Nat → Nat → List String → List ContentItem →
    Except Unit (List String × List ContentItem × Nat)
  | 0, _, log, found => Except.ok (log, found, 0)
  | fuel + 1, idx, log, found =>
    match oracle idx with
    | Except.error e => Except.error e
    | Except.ok text =>
      let d := parseDecision text
      match d.action with
      | NavAction.done => Except.ok (log, found, 1)
      | NavAction.navigate =>
        match getNodeByTitle nodes d.target with
        | some n =>
          let log2 := log ++ ["Navegou para: " ++ n.title] ++
            (if n.references.isEmpty then []
             else ["Referências encontradas: " ++ pyReprStrList n.references])
          match navLoop nodes oracle fuel (idx + 1) log2 (found ++ [mkContentItem n]) with
          | Except.error e => Except.error e
          | Except.ok (l, c, k) => Except.ok (l, c, k + 1)
        | none =>
          match navLoop nodes oracle fuel (idx + 1) log found with
          | Except.error e => Except.error e
          | Except.ok (l, c, k) => Except.ok (l, c, k + 1)
      | NavAction.follow_reference =>
        match getNodeByReference nodes d.target with
        | some n =>
          match navLoop nodes oracle fuel (idx + 1)
              (log ++ ["Seguiu referência para: " ++ n.title])
              (found ++ [mkContentItem n]) with
          | Except.error e => Except.error e
          | Except.ok (l, c, k) => Except.ok (l, c, k + 1)
        | none =>
          match navLoop nodes oracle fuel (idx + 1) log found with
          | Except.error e => Except.error e
          | Except.ok (l, c, k) => Except.ok (l, c, k + 1)

/-- Shape of the value `navigate` returns: the cached dictionary, the
`{"error": "Nenhum documento indexado"}` dictionary of line 535 (which has
no `navigation_path`, `content` or `steps` field), or the full result of
lines 588-593. -/
inductive NavReturn where
  | fromCache (r : NavResult)
  | noDocs
  | result (r : NavResult)
deriving DecidableEq, Repr

/-- Observable outcome of one `navigate` call: the returned value, the
number of decision-oracle calls made, and the cache write performed at
lines 596-598 (if any). -/
structure NavOutcome where
  ret : NavReturn
  oracleCalls : Nat
  cacheWrite : Option NavResult
deriving DecidableEq, Repr

/-- `StructuralKnowledgeService.navigate` (lines 507-600).  `cacheLookup`
is the value `KnowledgeCache.get("structural_navigation", query,
max_steps=max_steps)` returned (the cache degrades to `none` when
unavailable).  An uncaught oracle exception propagates out of the call. -/
def navigate (store : NavStore) (cacheLookup : Option NavResult)
    (oracle : Nat → Except Unit String) (query : String) (max_steps : Nat) :
    Except Unit NavOutcome :=
  match cacheLookup with
  | some r => Except.ok ⟨NavReturn.fromCache r, 0, none⟩
  | none =>
    if store.tocs.isEmpty then
      Except.ok ⟨NavReturn.noDocs, 0, none⟩
    else
      match navLoop store.nodes oracle max_steps 0 [] [] with
      | Except.error e => Except.error e
      | Except.ok (log, found, calls) =>
        let r : NavResult := ⟨query, log, found, log.length⟩
        Except.ok ⟨NavReturn.result r, calls, some r⟩

/-- Oracle that never raises. -/
def pureOracle (f : Nat → String) : Nat → Except Unit String :=
  fun i => Except.ok (f i)

instance {ε α : Type} [DecidableEq ε] [DecidableEq α] :
    DecidableEq (Except ε α) := fun a b =>
  match a, b with
  | Except.error e, Except.error f =>
    if h : e = f then isTrue (by rw [h])
    else isFalse (by intro hh; cases hh; exact h rfl)
  | Except.ok x, Except.ok y =>
    if h : x = y then isTrue (by rw [h])
    else isFalse (by intro hh; cases hh; exact h rfl)
  | Except.error _, Except.ok _ => isFalse (by intro hh; cases hh)
  | Except.ok _, Except.error _ => isFalse (by intro hh; cases hh)

/-! ## Structural extraction
(`StructuralKnowledgeService._extract_structure` and helpers,
app/services/structural_knowledge_service.py lines 219-447)

Both strategies are embedded up to and including boundary detection, i.e.
the construction of the node list with `parent_id` (an `order_index` link),
`node_type`, `title`, `level`, `order_index` and `page_start`.  The later
`_fill_node_contents` pass (lines 421-447) only assigns `page_end`,
`content` and `references`; it never touches `parent_id`, `level` or
`order_index`, the fields the tree invariant is about, so it is not
modelled. -/

/-- `NodeType` enum (lines 37-46). -/
inductive NodeType where
  | document
  | chapter
  | section
  | subsection
  | page
  | appendix
  | table
  | figure
deriving DecidableEq, Repr

/-- `DocumentNode` dataclass (lines 49-63), restricted to the fields the
extractors assign before `_fill_node_contents`. -/
structure DocNode where
  parent_id : Option Nat
  node_type : NodeType
  title : String
  content : String
  page_start : Nat
  page_end : Nat
  level : Nat
  order_index : Nat
  references : List String
deriving DecidableEq, Repr

/-! ### Regex matchers for `_extract_by_patterns` (lines 292-319)

Every pattern is applied with `re.match` (prefix-anchored) and
`re.IGNORECASE`.  Each is compiled here to a hand-written prefix matcher;
the character classes are disjoint from the whitespace separators, so
greedy matching without backtracking is equivalent. -/

/-- ASCII letter (the class `[A-Z]` under IGNORECASE). -/
def isAsciiAlpha (c : Char) : Bool :=
  ('A' ≤ c && c ≤ 'Z') || ('a' ≤ c && c ≤ 'z')

/-- Roman-numeral character class `[IVXLCDM]` under IGNORECASE. -/
def isRomanChar (c : Char) : Bool :=
  "IVXLCDMivxlcdm".data.contains c

/-- Case-insensitive literal prefix; returns the rest of the input. -/
def matchCI : List Char → List Char → Option (List Char)
  | [], s => some s
  | _ :: _, [] => none
  | p :: ps, c :: cs =>
    if pyLowerChar p == pyLowerChar c then matchCI ps cs else none

/-- Regex `\s+` (one or more whitespace characters), greedy. -/
def matchWs1 : List Char → Option (List Char)
  | [] => none
  | c :: rest =>
    if pyIsSpace c then some (rest.dropWhile pyIsSpace) else none

/-- Regex `\d+`, greedy. -/
def matchDigits1 (s : List Char) : Option (List Char) :=
  if (s.takeWhile Char.isDigit).isEmpty then none
  else some (s.dropWhile Char.isDigit)

/-- Regex `[IVXLCDM]+` under IGNORECASE, greedy. -/
def matchRoman1 (s : List Char) : Option (List Char) :=
  if (s.takeWhile isRomanChar).isEmpty then none
  else some (s.dropWhile isRomanChar)

/-- Patterns `^CAPÍTULO\s+(\d+|[IVXLCDM]+)` and the CHAPTER variant. -/
def chapterLitPat (lit : String) (l : List Char) : Bool :=
  match matchCI lit.data l with
  | none => false
  | some r1 =>
    match matchWs1 r1 with
    | none => false
    | some r2 => (matchDigits1 r2).isSome || (matchRoman1 r2).isSome

/-- Pattern `^(\d+)\.\s+[A-Z][A-Z\s]+$` (with IGNORECASE, `[A-Z]` is any
ASCII letter; the `$` anchors the tail). -/
def chapterNumPat (l : List Char) : Bool :=
  match matchDigits1 l with
  | none => false
  | some r1 =>
    match r1 with
    | '.' :: r2 =>
      match matchWs1 r2 with
      | none => false
      | some r3 =>
        match r3 with
        | c :: r4 =>
          isAsciiAlpha c && !r4.isEmpty &&
            r4.all (fun ch => isAsciiAlpha ch || pyIsSpace ch)
        | [] => false
    | _ => false

/-- Pattern `^(\d+\.\d+)\s+`. -/
def sectionNumPat (l : List Char) : Bool :=
  match matchDigits1 l with
  | some ('.' :: r2) =>
    match matchDigits1 r2 with
    | some (c :: _) => pyIsSpace c
    | _ => false
  | _ => false

/-- Patterns `^SEÇÃO\s+(\d+)`, `^SECTION\s+(\d+)`, `^TABELA\s+(\d+)`,
`^TABLE\s+(\d+)`, `^FIGURA\s+(\d+)`, `^FIGURE\s+(\d+)`. -/
def litDigitsPat (lit : String) (l : List Char) : Bool :=
  match matchCI lit.data l with
  | none => false
  | some r1 =>
    match matchWs1 r1 with
    | none => false
    | some r2 => (matchDigits1 r2).isSome

/-- Pattern `^(\d+\.\d+\.\d+)\s+`. -/
def subsectionNumPat (l : List Char) : Bool :=
  match matchDigits1 l with
  | some ('.' :: r2) =>
    match matchDigits1 r2 with
    | some ('.' :: r3) =>
      match matchDigits1 r3 with
      | some (c :: _) => pyIsSpace c
      | _ => false
    | _ => false
  | _ => false

/-- Patterns `^ANEXO\s+([A-Z]|\d+)` and the APPENDIX/APÊNDICE variants. -/
def appendixPat (lit : String) (l : List Char) : Bool :=
  match matchCI lit.data l with
  | none => false
  | some r1 =>
    match matchWs1 r1 with
    | none => false
    | some r2 =>
      match r2 with
      | c :: _ => isAsciiAlpha c || c.isDigit
      | [] => false

/-- First matching rule of the `patterns` dict (lines 292-319), evaluated
in insertion order: CHAPTER, SECTION, SUBSECTION, APPENDIX, TABLE,
FIGURE. -/
def lineNodeType (l : List Char) : Option NodeType :=
  if chapterLitPat "CAPÍTULO" l || chapterLitPat "CHAPTER" l ||
      chapterNumPat l then
    some NodeType.chapter
  else if sectionNumPat l || litDigitsPat "SEÇÃO" l ||
      litDigitsPat "SECTION" l then
    some NodeType.section
  else if subsectionNumPat l then
    some NodeType.subsection
  else if appendixPat "ANEXO" l || appendixPat "APPENDIX" l ||
      appendixPat "APÊNDICE" l then
    some NodeType.appendix
  else if litDigitsPat "TABELA" l || litDigitsPat "TABLE" l then
    some NodeType.table
  else if litDigitsPat "FIGURA" l || litDigitsPat "FIGURE" l then
    some NodeType.figure
  else
    none

/-! ### Pattern-based strategy (`_extract_by_patterns`, lines 287-396) -/

/-- Mutable state of the extraction loop: accumulated nodes, next
`order_index`, and the current-chapter / current-section pointers. -/
structure PatState where
  nodes : List DocNode
  order : Nat
  curCh : Option Nat
  curSec : Option Nat
deriving Repr

/-- Body of the `for line in lines` loop (lines 331-377).  The second
component accumulates `page_content` (the stripped unmatched lines). -/
def patLineStep (pageNum : Nat) (acc : PatState × List String)
    (rawLine : List Char) : PatState × List String :=
  let line := pyStripL rawLine
  if line.isEmpty then acc
  else
    match lineNodeType line with
    | none => (acc.1, acc.2 ++ [⟨line⟩])
    | some nt =>
      let st := acc.1
      let parentIdx : Option Nat :=
        match nt with
        | NodeType.section => st.curCh
        | NodeType.subsection => st.curSec
        | _ => none
      let level : Nat :=
        match nt with
        | NodeType.section => 2
        | NodeType.subsection => 3
        | _ => 1
      let node : DocNode :=
        ⟨parentIdx, nt, ⟨line⟩, "", pageNum, pageNum, level, st.order, []⟩
      let st2 : PatState :=
        { nodes := st.nodes ++ [node]
          order := st.order + 1
          curCh := if nt = NodeType.chapter then some st.order else st.curCh
          curSec := if nt = NodeType.section then some st.order else st.curSec }
      (st2, acc.2)

/-- Page-leaf node created at lines 380-391 when no structural node starts
on this page. -/
def mkPageNode (pageNum : Nat) (pageContent : List String) (order : Nat) :
    DocNode :=
  ⟨none, NodeType.page, "Página " ++ toString pageNum,
    String.intercalate "\n" pageContent, pageNum, pageNum, 0, order, []⟩

/-- Loop over pages (lines 325-391); `pageNum` is 1-based. -/
def patPagesLoop : PatState → Nat → List String → PatState
  | st, _, [] => st
  | st, pageNum, text :: rest =>
    let r := (pySplitCharL '\n' text.data).foldl (patLineStep pageNum) (st, [])
    let st2 := r.1
    let st3 :=
      if st2.nodes.any (fun n => n.page_start == pageNum) then st2
      else
        { st2 with
            nodes := st2.nodes ++ [mkPageNode pageNum r.2 st2.order]
            order := st2.order + 1 }
    patPagesLoop st3 (pageNum + 1) rest

/-- `_extract_by_patterns`: input is the per-page extracted text
(`page.extract_text() or ""`; a failing page contributes the empty
string). -/
def extractByPatterns (pages : List String) : List DocNode :=
  (patPagesLoop ⟨[], 0, none, none⟩ 1 pages).nodes

/-! ### Outline-based strategy (`_extract_from_outline`, lines 240-285) -/

/-- Shape of `reader.outline`: a list mixing destination entries (title and
resolved 1-based page number; a failed page resolution contributes 0) and
nested child lists. -/
inductive OutlineItem where
  | entry (title : String) (page : Nat)
  | nested (items : List OutlineItem)
deriving Repr

/-- `_detect_node_type` (lines 398-419). -/
def detectNodeType (title : String) (level : Nat) : NodeType :=
  let tu := pyUpperL title.data
  if ["CAPÍTULO", "CHAPTER", "PARTE", "PART"].any
      (fun x => hasSubstrL x.data tu) then NodeType.chapter
  else if ["ANEXO", "APPENDIX", "APÊNDICE"].any
      (fun x => hasSubstrL x.data tu) then NodeType.appendix
  else if ["TABELA", "TABLE", "QUADRO"].any
      (fun x => hasSubstrL x.data tu) then NodeType.table
  else if ["FIGURA", "FIGURE", "IMAGEM"].any
      (fun x => hasSubstrL x.data tu) then NodeType.figure
  else if level = 0 then NodeType.document
  else if level = 1 then NodeType.chapter
  else if level = 2 then NodeType.section
  else NodeType.subsection

/-- `process_outline` (lines 245-278): walks the outline, appending a node
per entry; a nested list is processed with the last appended node as parent
and `level + 1` (and is skipped entirely when no node exists yet). -/
def processOutline : List OutlineItem → Option Nat → Nat →
    List DocNode → Nat → List DocNode × Nat
  | [], _, _, ns, order => (ns, order)
  | OutlineItem.entry title page :: rest, parentIdx, level, ns, order =>
    processOutline rest parentIdx level
      (ns ++ [⟨parentIdx, detectNodeType title level, title, "", page, page,
        level, order, []⟩]) (order + 1)
  | OutlineItem.nested sub :: rest, parentIdx, level, ns, order =>
    match ns.getLast? with
    | none => processOutline rest parentIdx level ns order
    | some last =>
      let acc := processOutline sub (some last.order_index) (level + 1) ns order
      processOutline rest parentIdx level acc.1 acc.2
termination_by items _ _ _ _ => sizeOf items
decreasing_by all_goals (simp_wf <;> omega)

/-- `_extract_from_outline` (line 280): top-level call with no parent at
level 0. -/
def extractFromOutline (outline : List OutlineItem) : List DocNode :=
  (processOutline outline none 0 [] 0).1

/-- `_extract_structure` (lines 219-238): outline strategy when the
document carries an outline, pattern fallback when it yields nothing. -/
def extractStructure (outline : List OutlineItem) (pages : List String) :
    List DocNode :=
  let ns := if outline.isEmpty then [] else extractFromOutline outline
  if ns.isEmpty then extractByPatterns pages else ns

/-! ### Tree invariants the claims are about -/

/-- Well-formedness of the outline shape as the PDF reader produces it:
every nested child list directly follows its parent entry.  The flag says
whether the previous sibling was an entry. -/
def outlineWFAux : List OutlineItem → Bool → Bool
  | [], _ => true
  | OutlineItem.entry _ _ :: rest, _ => outlineWFAux rest true
  | OutlineItem.nested sub :: rest, prevIsEntry =>
    prevIsEntry && outlineWFAux sub false && outlineWFAux rest false
termination_by items _ => sizeOf items
decreasing_by all_goals (simp_wf <;> omega)

/-- Spec tree invariant on a node list: a parentless node has level 0, and
a node with a parent link has a node with that `order_index` in the list,
one level up. -/
def levelInvariant (ns : List DocNode) : Prop :=
  ∀ n ∈ ns,
    (n.parent_id = none → n.level = 0) ∧
    (∀ p, n.parent_id = some p →
      ∃ pn ∈ ns, pn.order_index = p ∧ n.level = pn.level + 1)

/-- Child half of the invariant, together with the fact that a parent link
always points strictly backwards in creation order. -/
def childLinksOk (ns : List DocNode) : Prop :=
  ∀ n ∈ ns, ∀ p, n.parent_id = some p →
    p < n.order_index ∧ ∃ pn ∈ ns, pn.order_index = p ∧ n.level = pn.level + 1

/-- `a` is the parent of `b` inside `ns` (links are by `order_index`). -/
def parentStep (ns : List DocNode) (a b : DocNode) : Prop :=
  a ∈ ns ∧ b ∈ ns ∧ b.parent_id = some a.order_index

/-- No node is its own (strict) ancestor under the parent links. -/
def noSelfAncestor (ns : List DocNode) : Prop :=
  ∀ n, ¬ Relation.TransGen (parentStep ns) n n

/-- Loop invariant of the pattern extractor state: every stored node was
created before the current order counter, child links are consistent and
point backwards, and the current-chapter / current-section pointers
designate a stored level-1 chapter / level-2 section. -/
def patInv (st : PatState) : Prop :=
  (∀ n ∈ st.nodes, n.order_index < st.order) ∧
  childLinksOk st.nodes ∧
  (∀ p, st.curCh = some p →
    ∃ pn ∈ st.nodes, pn.order_index = p ∧ pn.level = 1) ∧
  (∀ p, st.curSec = some p →
    ∃ pn ∈ st.nodes, pn.order_index = p ∧ pn.level = 2)

/-- Parent argument contract of `processOutline`: no parent at level 0, or
a stored parent exactly one level up. -/
def outlineParentOk (ns : List DocNode) : Option Nat → Nat → Prop
  | none, level => level = 0
  | some p, level => ∃ pn ∈ ns, pn.order_index = p ∧ pn.level + 1 = level

/-- Accumulator invariant of the outline extraction. -/
def outlineInv (ns : List DocNode) (order : Nat) : Prop :=
  (∀ n ∈ ns, n.order_index < order) ∧
  levelInvariant ns ∧
  (∀ n ∈ ns, ∀ p, n.parent_id = some p → p < n.order_index)

/-- Outline with a chapter and its nested section, shaped as the PDF
reader produces outlines (each child list directly follows its parent
entry). -/
def wOutline : List OutlineItem :=
  [OutlineItem.entry "CAPÍTULO 1" 1,
    OutlineItem.nested [OutlineItem.entry "1.1 Dose" 2]]

/-! ## Chunking (`KnowledgeService._create_chunks`,
app/services/knowledge_service.py lines 375-393)

The tokenizer is external: `encode`/`decode` are parameters, and
`_create_chunks text` is modelled on `tokens = encode text`.  Each emitted
chunk is kept as the pair of its token window and its stripped decoded
text, so token counts of emitted chunks can be stated. -/

/-- `CHUNK_SIZE` (knowledge_service.py line 31). -/
def CHUNK_SIZE : Nat := 500

/-- `CHUNK_OVERLAP` (knowledge_service.py line 32). -/
def CHUNK_OVERLAP : Nat := 50

/-- `while start < len(tokens)` loop of lines 380-391: take the window
`tokens[start:start+CHUNK_SIZE]`, decode and strip it, emit it when
non-empty, and advance `start` to `end - CHUNK_OVERLAP`. -/
def createChunksAux (decode : List Nat → String) (tokens : List Nat)
    (start : Nat) : List (List Nat × String) :=
  if _h : start < tokens.length then
    if (pyStrip (decode ((tokens.drop start).take CHUNK_SIZE))).data.isEmpty then
      createChunksAux decode tokens (start + CHUNK_SIZE - CHUNK_OVERLAP)
    else
      ((tokens.drop start).take CHUNK_SIZE,
        pyStrip (decode ((tokens.drop start).take CHUNK_SIZE))) ::
        createChunksAux decode tokens (start + CHUNK_SIZE - CHUNK_OVERLAP)
  else []
termination_by tokens.length - start
decreasing_by all_goals (simp only [CHUNK_SIZE, CHUNK_OVERLAP]; omega)

/-- Emitted chunks with their token windows. -/
def createChunksPairs (decode : List Nat → String) (tokens : List Nat) :
    List (List Nat × String) :=
  createChunksAux decode tokens 0

/-- `_create_chunks` on the encoded text: the emitted chunk strings. -/
def createChunks (decode : List Nat → String) (tokens : List Nat) :
    List String :=
  (createChunksPairs decode tokens).map Prod.snd

/-! ## Embedding cache and batch embedding
(`EmbeddingCache` in app/infra/cache.py lines 135-222,
`KnowledgeService._get_embeddings_batch` in knowledge_service.py
lines 292-355)

The cache is an association list keyed by the normalised text
(`text.lower().strip()`; the sha256 key derivation is injective on these).
The embedding oracle is a function from the position of a text inside the
combined request and the text itself to the returned embedding string, so
one request with several entries may answer each entry independently. -/

/-- `EmbeddingCache._get_key` normalisation (cache.py line 147). -/
def embKey (text : String) : String := pyStrip (pyLower text)

/-- Redis `GET` on the embedding cache. -/
def cacheGet (cache : List (String × String)) (text : String) :
    Option String :=
  (cache.find? (fun kv => kv.1 == embKey text)).map Prod.snd

/-- Association-list update (Redis `SETEX` overwrites the key). -/
def setAssoc : List (String × String) → String → String →
    List (String × String)
  | [], k, v => [(k, v)]
  | (k0, v0) :: rest, k, v =>
    if k0 == k then (k, v) :: rest else (k0, v0) :: setAssoc rest k v

/-- Redis `SETEX` on the embedding cache (`EmbeddingCache.set`). -/
def cacheSet (cache : List (String × String)) (text emb : String) :
    List (String × String) :=
  setAssoc cache (embKey text) emb

/-- Observable outcome of `_get_embeddings_batch`: the embeddings in input
order, the cache afterwards, and the texts included in the single combined
oracle request (`compute_texts`, in order). -/
structure BatchResult where
  embeddings : List String
  cache : List (String × String)
  sentTexts : List String
deriving DecidableEq, Repr

/-- `_get_embeddings_batch` (lines 292-355).  All cache lookups happen
before any write, against the incoming cache; the cache misses are sent in
input order as one request; results are cached and merged back by original
position.  The `except` fallback of lines 345-353 only fires when the
oracle raises, which the total oracle model cannot. -/
def getEmbeddingsBatch (oracle : Nat → String → String)
    (cache : List (String × String)) (texts : List String) : BatchResult :=
  let toCompute := texts.enum.filter (fun p => (cacheGet cache p.2).isNone)
  if toCompute.isEmpty then
    ⟨texts.map (fun t => (cacheGet cache t).getD ""), cache, []⟩
  else
    let computed : List (Nat × String × String) :=
      toCompute.enum.map (fun jp => (jp.2.1, jp.2.2, oracle jp.1 jp.2.2))
    let cache2 := computed.foldl (fun c q => cacheSet c q.2.1 q.2.2) cache
    let result := texts.enum.map (fun p =>
      match cacheGet cache p.2 with
      | some e => e
      | none =>
        ((computed.find? (fun q => q.1 == p.1)).map (fun q => q.2.2)).getD "")
    ⟨result, cache2, toCompute.map Prod.snd⟩

/-! ## Ingestion

A PDF file is its observable content: name, content hash (md5 of the
bytes), whether the PDF parser can read it, its outline and its per-page
extracted text (a failing page contributes the empty string). -/

structure PdfFile where
  file_name : String
  file_hash : String
  readable : Bool
  outline : List OutlineItem
  pages : List String
deriving Repr

/-- `KnowledgeService._extract_text_from_pdf` (knowledge_service.py lines
359-373): join the non-empty page texts with a blank line; any parse
exception yields the empty string. -/
def extractTextFromPdf (pdf : PdfFile) : String :=
  if pdf.readable then
    String.intercalate "\n\n" (pdf.pages.filter (fun t => !t.isEmpty))
  else ""

/-! ### Structural ingestion (`StructuralKnowledgeService.ingest_pdf`,
structural_knowledge_service.py lines 143-217, and `ingest_all_pdfs`,
lines 783-801) -/

/-- Row of `structural_documents`. -/
structure SDocRow where
  document_id : Nat
  file_name : String
  file_hash : String
  total_pages : Nat
deriving DecidableEq, Repr

/-- Row of `structural_nodes` as written by lines 190-198. -/
structure StoredNode where
  node_id : Nat
  document_id : Nat
  parent_id : Option Nat
  node_type : NodeType
  title : String
  content : String
  page_start : Nat
  page_end : Nat
  level : Nat
  order_index : Nat
  references : List String
deriving DecidableEq, Repr

/-- Structural store: document, node and toc tables, the SERIAL counters,
and a counter of global cache invalidations performed. -/
structure SDb where
  documents : List SDocRow
  nodes : List StoredNode
  tocs : List (Nat × String)
  nextDocId : Nat
  nextNodeId : Nat
  invalidations : Nat
deriving DecidableEq, Repr

/-- Return value of `ingest_pdf` (structural path). -/
inductive SIngestResult where
  | alreadyProcessed (document_id : Nat)
  | success (document_id : Nat) (file : String) (total_nodes total_pages : Nat)
deriving DecidableEq, Repr

/-- Nat-keyed association update for `node_id_map`. -/
def setNatAssoc : List (Nat × Nat) → Nat → Nat → List (Nat × Nat)
  | [], k, v => [(k, v)]
  | (k0, v0) :: rest, k, v =>
    if k0 == k then (k, v) :: rest else (k0, v0) :: setNatAssoc rest k v

/-- Node-saving loop of lines 185-201.  `parent_db_id` is
`node_id_map.get(node.parent_id) if node.parent_id else None`: Python
truthiness makes a parent whose `order_index` is 0 map to NULL, and a
missing map entry also yields NULL. -/
def storeNodesAux (docId : Nat) : List DocNode → List (Nat × Nat) → Nat →
    List StoredNode
  | [], _, _ => []
  | n :: rest, idMap, nextId =>
    let parentDb : Option Nat :=
      match n.parent_id with
      | none => none
      | some 0 => none
      | some p => (idMap.find? (fun kv => kv.1 == p)).map Prod.snd
    let sn : StoredNode :=
      ⟨nextId, docId, parentDb, n.node_type, n.title, n.content,
        n.page_start, n.page_end, n.level, n.order_index, n.references⟩
    sn :: storeNodesAux docId rest (setNatAssoc idMap n.order_index nextId)
      (nextId + 1)

/-- `_generate_toc` rendering (lines 479-494) over the freshly stored
nodes of this document, in `order_index` order. -/
def tocTextOf (ns : List StoredNode) : String :=
  String.intercalate "\n"
    (ns.map (fun n =>
      String.join (List.replicate n.level "  ") ++ n.title ++
        " (p." ++ toString n.page_start ++ ")"))

/-- `ingest_pdf` (lines 143-217).  The duplicate-hash check (lines
161-167) happens before the PDF is parsed, so a known hash returns
`already_processed` without any write; an unreadable new PDF raises out of
the call (`PdfReader` at line 170 is not guarded). -/
def structuralIngest (db : SDb) (pdf : PdfFile) :
    Except Unit (SIngestResult × SDb) :=
  match db.documents.find? (fun d => d.file_hash == pdf.file_hash) with
  | some d => Except.ok (SIngestResult.alreadyProcessed d.document_id, db)
  | none =>
    if pdf.readable then
      let docId := db.nextDocId
      let ns := extractStructure pdf.outline pdf.pages
      let stored := storeNodesAux docId ns [] db.nextNodeId
      let db2 : SDb :=
        { documents := db.documents ++
            [⟨docId, pdf.file_name, pdf.file_hash, pdf.pages.length⟩]
          nodes := db.nodes ++ stored
          tocs := db.tocs ++ [(docId, tocTextOf stored)]
          nextDocId := db.nextDocId + 1
          nextNodeId := db.nextNodeId + stored.length
          invalidations := db.invalidations + 1 }
      Except.ok
        (SIngestResult.success docId pdf.file_name stored.length
          pdf.pages.length, db2)
    else Except.error ()

/-- `ingest_all_pdfs` (lines 783-801): a plain loop with no exception
handling around `ingest_pdf`, so a raising document aborts the whole batch
(the missing-folder early return is not modelled). -/
def structuralIngestAll (db : SDb) :
    List PdfFile → Except Unit (List SIngestResult × SDb)
  | [] => Except.ok ([], db)
  | f :: rest =>
    match structuralIngest db f with
    | Except.error e => Except.error e
    | Except.ok (r, db2) =>
      match structuralIngestAll db2 rest with
      | Except.error e => Except.error e
      | Except.ok (rs, db3) => Except.ok (r :: rs, db3)

/-! ### Vector ingestion (`KnowledgeService.ingest_pdf`,
knowledge_service.py lines 57-146) -/

/-- `BATCH_SIZE` (knowledge_service.py line 37). -/
def BATCH_SIZE : Nat := 10

/-- Row of `knowledge_chunks`. -/
structure ChunkRow where
  content : String
  embedding : String
  file_name : String
  file_hash : String
  chunk_index : Nat
deriving DecidableEq, Repr

/-- Vector store: the chunk table, the embedding cache, and a counter of
global cache invalidations performed. -/
structure VDb where
  chunks : List ChunkRow
  embCache : List (String × String)
  invalidations : Nat
deriving DecidableEq, Repr

/-- Return value of the vector `ingest_pdf`. -/
inductive VIngestResult where
  | extractError
  | alreadyProcessed (file : String) (chunks : Nat)
  | success (file : String) (total_chunks saved_chunks : Nat)
deriving DecidableEq, Repr

/-- Batch loop of lines 97-117: process `BATCH_SIZE` chunks per embedding
request, threading the embedding cache; `i` is the index of the first
chunk of the batch.  With a total oracle the `except ... continue` of
lines 115-117 never fires, so every chunk is saved. -/
def vectorBatchesLoop (oracle : Nat → String → String)
    (fname fhash : String) :
    List String → Nat → List (String × String) →
    List ChunkRow × List (String × String)
  | [], _, cache => ([], cache)
  | c :: cs, i, cache =>
    let batch := (c :: cs).take BATCH_SIZE
    let br := getEmbeddingsBatch oracle cache batch
    let rows := (batch.zip br.embeddings).enum.map
      (fun jp => (⟨jp.2.1, jp.2.2, fname, fhash, i + jp.1⟩ : ChunkRow))
    let r := vectorBatchesLoop oracle fname fhash ((c :: cs).drop BATCH_SIZE)
      (i + BATCH_SIZE) br.cache
    (rows ++ r.1, r.2)
termination_by chunks _ _ => chunks.length
decreasing_by simp only [BATCH_SIZE, List.length_drop, List.length_cons]; omega

/-- Vector `ingest_pdf` (lines 57-129): extract text (empty text is an
explicit error result), chunk it, short-circuit on a known content hash
before any write, else embed and save every chunk and invalidate the
cache. -/
def vectorIngest (encode : String → List Nat) (decode : List Nat → String)
    (oracle : Nat → String → String) (db : VDb) (pdf : PdfFile) :
    VIngestResult × VDb :=
  let text := extractTextFromPdf pdf
  if text.isEmpty then (VIngestResult.extractError, db)
  else
    let chunks := createChunks decode (encode text)
    let existing :=
      (db.chunks.filter (fun c => c.file_hash == pdf.file_hash)).length
    if existing > 0 then
      (VIngestResult.alreadyProcessed pdf.file_name existing, db)
    else
      let r := vectorBatchesLoop oracle pdf.file_name pdf.file_hash chunks 0
        db.embCache
      (VIngestResult.success pdf.file_name chunks.length r.1.length,
        { chunks := db.chunks ++ r.1
          embCache := r.2
          invalidations := db.invalidations + 1 })

/-- Vector `ingest_all_pdfs` (lines 131-146): the loop never raises, since
extraction failures are swallowed inside `ingest_pdf` (the missing-folder
early return is not modelled). -/
def vectorIngestAll (encode : String → List Nat)
    (decode : List Nat → String) (oracle : Nat → String → String) :
    VDb → List PdfFile → List VIngestResult × VDb
  | db, [] => ([], db)
  | db, f :: rest =>
    let r := vectorIngest encode decode oracle db f
    let rs := vectorIngestAll encode decode oracle r.2 rest
    (r.1 :: rs.1, rs.2)

/-! ## Concrete inputs used by witnesses and counterexamples -/

/-- Observation: the `steps` field of a full navigation result. -/
def navResultSteps : Except Unit NavOutcome → Option Nat
  | Except.ok ⟨NavReturn.result r, _, _⟩ => some r.steps
  | _ => none

/-- Observation: the number of decision-oracle calls of a completed
navigation. -/
def navCallCount : Except Unit NavOutcome → Option Nat
  | Except.ok out => some out.oracleCalls
  | _ => none

/-- Stored appendix node carrying a cross-reference. -/
def budgetNodeRow : NodeRow :=
  ⟨"ANEXO G", "appendix", "conteudo do anexo", 7, ["TABELA 2"]⟩

/-- Store with one ingested document and the appendix node. -/
def budgetStore : NavStore :=
  ⟨[⟨"manual.pdf", some "ANEXO G (p.7)"⟩], [budgetNodeRow]⟩

/-- Oracle that always navigates to the (existing) appendix title. -/
def budgetOracleText : Nat → String :=
  fun _ => "ACTION: NAVIGATE" ++ "\n" ++ "TARGET: ANEXO G"

/-- Decision oracle that raises on every call. -/
def failingOracle : Nat → Except Unit String := fun _ => Except.error ()

/-- Store with one ingested document and no nodes. -/
def oneDocStore : NavStore := ⟨[⟨"doc.pdf", none⟩], []⟩

/-- Deterministic stub oracle: done on the first call. -/
def detOracleText : Nat → String :=
  fun i => if i == 0 then "ACTION: DONE" else ""

/-- Stored document used by the idempotence witness. -/
def dupPdf : PdfFile := ⟨"manual.pdf", "abc123", true, [], ["algum texto util"]⟩

/-- Structural store that already holds the hash of `dupPdf`. -/
def dupSDb : SDb := ⟨[⟨7, "manual.pdf", "abc123", 1⟩], [], [(7, "toc")], 8, 1, 0⟩

/-- Vector store that already holds one chunk of `dupPdf`. -/
def dupVDb : VDb :=
  ⟨[⟨"algum texto util", "[0.1]", "manual.pdf", "abc123", 0⟩], [], 0⟩

/-- Unreadable document (the PDF parser raises on it). -/
def corruptPdf : PdfFile := ⟨"corrupto.pdf", "deadbeef", false, [], []⟩

/-- Readable one-page document. -/
def goodPdf : PdfFile := ⟨"bom.pdf", "beefcafe", true, [], ["pagina um"]⟩

/-- Empty structural store. -/
def emptySDb : SDb := ⟨[], [], [], 1, 1, 0⟩

/-- Empty vector store. -/
def emptyVDb : VDb := ⟨[], [], 0⟩

/-- Position-sensitive oracle: answers the first request entry with one
vector and any later entry with another. -/
def posOracle : Nat → String → String :=
  fun j _ => if j == 0 then "[1]" else "[2]"

/-- Token decoder for the chunking examples: any non-empty token window
decodes to a visible character, the empty window to the empty string. -/
def decOne : List Nat → String := fun ts => if ts.isEmpty then "" else "x"

/-! # Theorems -/

/-! ## C5 — mode selection -/

/-- C5: the mode selector is a pure function of the query string: it
returns STRUCTURAL when the lowercased query contains a keyword of
`STRUCTURAL_KEYWORDS`, else STRUCTURAL when the query has more than 10
whitespace-separated words, else VECTOR; the query about a dosing table
classifies as STRUCTURAL and the eight-word-free-text one as VECTOR. -/
theorem detect_best_mode_spec :
    (∀ q : String,
      detect_best_mode q =
        if STRUCTURAL_KEYWORDS.any (fun kw => hasSubstrL kw.data (pyLowerL q.data)) then
          RetrievalMode.structural
        else if pyWordCount q > 10 then RetrievalMode.structural
        else RetrievalMode.vector) ∧
    detect_best_mode "tabela de dosagem para cães" = RetrievalMode.structural ∧
    detect_best_mode "o que é cinomose" = RetrievalMode.vector :=
  ⟨fun _ => rfl, by decide, by decide⟩

/-! ## C9 — empty store -/

/-- C9: with no ingested documents and no cache entry for the query,
`navigate` returns the bare error dictionary (the `noDocs` return, which
carries no `navigation_path`, `content` or `steps` field), makes no
decision-oracle call and writes nothing to the cache. -/
theorem navigate_empty_store (store : NavStore)
    (oracle : Nat → Except Unit String) (query : String) (max_steps : Nat)
    (h : store.tocs = []) :
    navigate store none oracle query max_steps =
      Except.ok ⟨NavReturn.noDocs, 0, none⟩ := by
  simp [navigate, h]

/-- Witness for `navigate_empty_store` on the empty store. -/
theorem navigate_empty_store_witness :
    (⟨[], []⟩ : NavStore).tocs = [] ∧
    navigate ⟨[], []⟩ none failingOracle "o que é cinomose" 5 =
      Except.ok ⟨NavReturn.noDocs, 0, none⟩ :=
  ⟨rfl, navigate_empty_store ⟨[], []⟩ failingOracle "o que é cinomose" 5 rfl⟩

/-! ## C8 — determinism -/

/-- C8: navigation is deterministic: with the store, the cache view and the
oracle response sequence fixed, two runs of `navigate` with the same query
and budget return the same outcome (in particular the same
`navigation_path` and `content`). -/
theorem navigate_deterministic (store : NavStore)
    (cacheLookup : Option NavResult)
    (oracle1 oracle2 : Nat → Except Unit String) (query : String)
    (max_steps : Nat) (h : ∀ i, oracle1 i = oracle2 i) :
    navigate store cacheLookup oracle1 query max_steps =
      navigate store cacheLookup oracle2 query max_steps := by
  have he : oracle1 = oracle2 := funext h
  rw [he]

/-- Witness for `navigate_deterministic` with a concrete stub oracle. -/
theorem navigate_deterministic_witness :
    (∀ i, pureOracle detOracleText i = pureOracle detOracleText i) ∧
    navigate budgetStore none (pureOracle detOracleText) "q" 5 =
      navigate budgetStore none (pureOracle detOracleText) "q" 5 :=
  ⟨fun _ => rfl,
    navigate_deterministic budgetStore none _ _ "q" 5 (fun _ => rfl)⟩

/-! ## C1 — step budget -/

/-- Bound on the navigation loop under a non-raising oracle: it always
completes, makes at most `fuel` oracle calls, and adds at most two
navigation-log lines per iteration. -/
theorem navLoop_pure_bound (nodes : List NodeRow) (f : Nat → String) :
    ∀ (fuel idx : Nat) (log : List String) (found : List ContentItem),
      ∃ l c k,
        navLoop nodes (pureOracle f) fuel idx log found =
          Except.ok (l, c, k) ∧
        k ≤ fuel ∧ l.length ≤ log.length + 2 * fuel := by
  intro fuel
  induction fuel with
  | zero =>
    intro idx log found
    exact ⟨log, found, 0, rfl, Nat.le_refl _, by omega⟩
  | succ n ih =>
    intro idx log found
    simp only [navLoop, pureOracle]
    cases hA : (parseDecision (f idx)).action with
    | done => exact ⟨log, found, 1, rfl, by omega, by omega⟩
    | navigate =>
      cases hN : getNodeByTitle nodes (parseDecision (f idx)).target with
      | none =>
        obtain ⟨l, c, k, heq, hk, hl⟩ := ih (idx + 1) log found
        dsimp only
        rw [heq]
        exact ⟨l, c, k + 1, rfl, by omega, by omega⟩
      | some nd =>
        obtain ⟨l, c, k, heq, hk, hl⟩ :=
          ih (idx + 1)
            (log ++ ["Navegou para: " ++ nd.title] ++
              (if nd.references.isEmpty then []
               else ["Referências encontradas: " ++ pyReprStrList nd.references]))
            (found ++ [mkContentItem nd])
        dsimp only
        rw [heq]
        refine ⟨l, c, k + 1, rfl, by omega, ?_⟩
        have hlen :
            (log ++ ["Navegou para: " ++ nd.title] ++
              (if nd.references.isEmpty then []
               else ["Referências encontradas: " ++
                 pyReprStrList nd.references])).length ≤ log.length + 2 := by
          cases nd.references.isEmpty <;> simp [List.length_append]
        omega
    | follow_reference =>
      cases hN : getNodeByReference nodes (parseDecision (f idx)).target with
      | none =>
        obtain ⟨l, c, k, heq, hk, hl⟩ := ih (idx + 1) log found
        dsimp only
        rw [heq]
        exact ⟨l, c, k + 1, rfl, by omega, by omega⟩
      | some nd =>
        obtain ⟨l, c, k, heq, hk, hl⟩ :=
          ih (idx + 1) (log ++ ["Seguiu referência para: " ++ nd.title])
            (found ++ [mkContentItem nd])
        dsimp only
        rw [heq]
        refine ⟨l, c, k + 1, rfl, by omega, ?_⟩
        have hlen :
            (log ++ ["Seguiu referência para: " ++ nd.title]).length =
              log.length + 1 := by simp
        omega

/-- C1 (amended): against any non-raising oracle and any store, an uncached
`navigate(query, max_steps)` completes, makes at most `max_steps`
decision-oracle calls, and returns a `steps` field of at most
`2 * max_steps` — not `max_steps`: a navigation step that hits a node with
recorded references appends two log lines, and `steps` counts log lines. -/
theorem navigate_budget_correct (store : NavStore) (f : Nat → String)
    (query : String) (max_steps : Nat) :
    ∃ out,
      navigate store none (pureOracle f) query max_steps = Except.ok out ∧
      out.oracleCalls ≤ max_steps ∧
      ∀ r, out.ret = NavReturn.result r → r.steps ≤ 2 * max_steps := by
  unfold navigate
  cases hT : store.tocs.isEmpty with
  | true =>
    refine ⟨⟨NavReturn.noDocs, 0, none⟩, by simp, Nat.zero_le _, ?_⟩
    intro r hr
    simp at hr
  | false =>
    obtain ⟨l, c, k, heq, hk, hl⟩ :=
      navLoop_pure_bound store.nodes f max_steps 0 [] []
    rw [heq]
    simp only [Bool.false_eq_true, if_false]
    refine ⟨_, rfl, hk, ?_⟩
    intro r hr
    injection hr with h
    subst h
    simpa using hl

/-- Witness for `navigate_budget_correct` on a concrete store/oracle. -/
theorem navigate_budget_correct_witness :
    ∃ out,
      navigate budgetStore none (pureOracle budgetOracleText) "dosagem" 3 =
        Except.ok out ∧
      out.oracleCalls ≤ 3 ∧
      ∀ r, out.ret = NavReturn.result r → r.steps ≤ 2 * 3 :=
  navigate_budget_correct budgetStore budgetOracleText "dosagem" 3

/-- C1 counterexample: with `max_steps = 1` and an oracle that navigates to
an existing appendix with recorded references, the decision oracle is
called once but the returned `steps` field is 2 > 1 (`steps` is the length
of `navigation_log`, and the hit appends both a navigation line and a
references line), refuting the claim that `steps` never exceeds
`max_steps`. -/
theorem navigate_budget_counterexample :
    navCallCount (navigate budgetStore none (pureOracle budgetOracleText)
      "dosagem" 1) = some 1 ∧
    navResultSteps (navigate budgetStore none (pureOracle budgetOracleText)
      "dosagem" 1) = some 2 := by decide

/-! ## C3 — oracle response translation and oracle failure -/

/-- Folding the parser lines never leaves the `done` state when every
ACTION line names neither NAVIGATE nor FOLLOW_REFERENCE. -/
theorem parseDecisionLines_done (lines : List (List Char)) :
    ∀ tgt,
      (∀ line ∈ lines, startsWithL "ACTION:".data line = true →
        hasSubstrL "NAVIGATE".data (pyStripL (pyDeleteL "ACTION:".data line)) = false ∧
        hasSubstrL "FOLLOW_REFERENCE".data
          (pyStripL (pyDeleteL "ACTION:".data line)) = false) →
      (parseDecisionLines lines NavAction.done tgt).action = NavAction.done := by
  induction lines with
  | nil => intro tgt _; rfl
  | cons line rest ih =>
    intro tgt h
    simp only [parseDecisionLines]
    cases hA : startsWithL "ACTION:".data line with
    | false =>
      simp only [Bool.false_eq_true, if_false]
      cases hT : startsWithL "TARGET:".data line <;>
        simp only [Bool.false_eq_true, if_false, if_true] <;>
        exact ih _ (fun l hl => h l (List.mem_cons_of_mem _ hl))
    | true =>
      simp only [if_true]
      obtain ⟨h1, h2⟩ := h line (List.mem_cons_self _ _) hA
      rw [h1, h2]
      simp only [Bool.false_eq_true, if_false]
      exact ih _ (fun l hl => h l (List.mem_cons_of_mem _ hl))

/-- C3 (amended): the translation layer is fail-safe for text — a response
with no ACTION line, or whose ACTION lines name neither NAVIGATE nor
FOLLOW_REFERENCE, parses to DONE — but an unreachable oracle is NOT
absorbed: an exception raised by the decision call propagates out of
`navigate` (the call does not terminate normally). -/
theorem oracle_fail_safe_amended :
    (∀ text : String,
      (∀ line ∈ pySplitCharL '\n' text.data,
        startsWithL "ACTION:".data line = false) →
      (parseDecision text).action = NavAction.done) ∧
    (∀ text : String,
      (∀ line ∈ pySplitCharL '\n' text.data,
        startsWithL "ACTION:".data line = true →
        hasSubstrL "NAVIGATE".data
          (pyStripL (pyDeleteL "ACTION:".data line)) = false ∧
        hasSubstrL "FOLLOW_REFERENCE".data
          (pyStripL (pyDeleteL "ACTION:".data line)) = false) →
      (parseDecision text).action = NavAction.done) ∧
    (∀ (store : NavStore) (oracle : Nat → Except Unit String)
        (query : String) (max_steps : Nat),
      store.tocs ≠ [] → 0 < max_steps → oracle 0 = Except.error () →
      navigate store none oracle query max_steps = Except.error ()) := by
  refine ⟨?_, ?_, ?_⟩
  · intro text h
    apply parseDecisionLines_done
    intro line hl hA
    rw [h line hl] at hA
    cases hA
  · intro text h
    exact parseDecisionLines_done _ _ h
  · intro store oracle query max_steps hne hpos herr
    unfold navigate
    have hT : store.tocs.isEmpty = false := by
      cases hs : store.tocs with
      | nil => exact absurd hs hne
      | cons a l => simp [hs]
    rw [hT]
    obtain ⟨m, rfl⟩ : ∃ m, max_steps = m + 1 :=
      ⟨max_steps - 1, by omega⟩
    simp only [navLoop, herr, Bool.false_eq_true, if_false]

/-- Witness for `oracle_fail_safe_amended`: an ACTION-free response parses
to DONE, and a raising oracle makes `navigate` raise. -/
theorem oracle_fail_safe_amended_witness :
    (parseDecision "sem linha de acao").action = NavAction.done ∧
    navigate oneDocStore none failingOracle "q" 2 = Except.error () :=
  ⟨oracle_fail_safe_amended.1 "sem linha de acao" (by decide),
    oracle_fail_safe_amended.2.2 oneDocStore failingOracle "q" 2
      (by decide) (by decide) rfl⟩

/-- C3 counterexample: with documents ingested and a decision oracle whose
call raises, `navigate` propagates the exception instead of terminating
normally with a DONE decision, refuting the unreachable-oracle half of the
claim. -/
theorem oracle_error_propagates_counterexample :
    navigate oneDocStore none failingOracle "q" 5 = Except.error () := by
  decide

/-! ## C4 — idempotent re-ingestion -/

/-- C4: ingesting a document whose content hash is already present is an
idempotent no-op on both paths: the structural path returns
`already_processed` with the stored document id and an unchanged store, and
the vector path returns `already_processed` with the stored chunk count and
an unchanged store (in particular no cache invalidation and no table write
happens, so node and chunk counts are unchanged). -/
theorem ingest_idempotent :
    (∀ (db : SDb) (pdf : PdfFile) (d : SDocRow),
      db.documents.find? (fun x => x.file_hash == pdf.file_hash) = some d →
      structuralIngest db pdf =
        Except.ok (SIngestResult.alreadyProcessed d.document_id, db)) ∧
    (∀ (encode : String → List Nat) (decode : List Nat → String)
        (oracle : Nat → String → String) (db : VDb) (pdf : PdfFile),
      extractTextFromPdf pdf ≠ "" →
      0 < (db.chunks.filter (fun c => c.file_hash == pdf.file_hash)).length →
      vectorIngest encode decode oracle db pdf =
        (VIngestResult.alreadyProcessed pdf.file_name
          ((db.chunks.filter (fun c => c.file_hash == pdf.file_hash)).length),
          db)) := by
  constructor
  · intro db pdf d h
    unfold structuralIngest
    rw [h]
  · intro encode decode oracle db pdf htext hcount
    have hne : (extractTextFromPdf pdf).isEmpty = false := by
      rw [Bool.eq_false_iff]
      intro hE
      exact htext ((String.isEmpty_iff _).mp hE)
    simp only [vectorIngest, hne, Bool.false_eq_true, if_false, gt_iff_lt,
      if_pos hcount]


/-- Witness for `ingest_idempotent` on concrete stores holding the hash. -/
theorem ingest_idempotent_witness :
    structuralIngest dupSDb dupPdf =
      Except.ok (SIngestResult.alreadyProcessed 7, dupSDb) ∧
    vectorIngest (fun _ => []) (fun _ => "") (fun _ _ => "") dupVDb dupPdf =
      (VIngestResult.alreadyProcessed "manual.pdf"
        ((dupVDb.chunks.filter
          (fun c => c.file_hash == dupPdf.file_hash)).length), dupVDb) :=
  ⟨ingest_idempotent.1 dupSDb dupPdf ⟨7, "manual.pdf", "abc123", 1⟩ (by decide),
    ingest_idempotent.2 (fun _ => []) (fun _ => "") (fun _ _ => "") dupVDb
      dupPdf (by decide) (by decide)⟩

/-! ## C7 — per-document failure isolation in batch ingestion -/

/-- Every readable document ingests without raising on the structural
path (the only raise is the unguarded PDF parse). -/
theorem structuralIngest_ok_of_readable (db : SDb) (f : PdfFile)
    (h : f.readable = true) :
    ∃ r db2, structuralIngest db f = Except.ok (r, db2) := by
  unfold structuralIngest
  cases hf : db.documents.find? (fun x => x.file_hash == f.file_hash) with
  | some d => exact ⟨_, _, rfl⟩
  | none =>
    rw [h]
    exact ⟨_, _, rfl⟩

/-- C7 (amended): the vector batch path returns one result entry per input
document and is never short-circuited — an unreadable document becomes an
explicit extraction-error entry and the loop continues — but the structural
batch path has no per-document handler: an unreadable document makes the
whole batch raise, and only when every document is readable does it return
one entry per document. -/
theorem ingest_batch_isolation_amended :
    (∀ (encode : String → List Nat) (decode : List Nat → String)
        (oracle : Nat → String → String) (db : VDb) (files : List PdfFile),
      (vectorIngestAll encode decode oracle db files).1.length =
        files.length) ∧
    (∀ (encode : String → List Nat) (decode : List Nat → String)
        (oracle : Nat → String → String) (db : VDb) (pdf : PdfFile),
      pdf.readable = false →
      vectorIngest encode decode oracle db pdf =
        (VIngestResult.extractError, db)) ∧
    (∀ (db : SDb) (files : List PdfFile),
      (∀ f ∈ files, f.readable = true) →
      ∃ rs db2, structuralIngestAll db files = Except.ok (rs, db2) ∧
        rs.length = files.length) := by
  refine ⟨?_, ?_, ?_⟩
  · intro encode decode oracle db files
    induction files generalizing db with
    | nil => rfl
    | cons f rest ih => simp [vectorIngestAll, ih]
  · intro encode decode oracle db pdf h
    unfold vectorIngest extractTextFromPdf
    rw [h]
    rfl
  · intro db files
    induction files generalizing db with
    | nil => exact fun _ => ⟨[], db, rfl, rfl⟩
    | cons f rest ih =>
      intro h
      obtain ⟨r, db2, hr⟩ :=
        structuralIngest_ok_of_readable db f (h f (List.mem_cons_self _ _))
      obtain ⟨rs, db3, hrs, hlen⟩ :=
        ih db2 (fun g hg => h g (List.mem_cons_of_mem _ hg))
      refine ⟨r :: rs, db3, ?_, by simp [hlen]⟩
      unfold structuralIngestAll
      rw [hr]
      dsimp only
      rw [hrs]


/-- Witness for `ingest_batch_isolation_amended` on a concrete folder. -/
theorem ingest_batch_isolation_amended_witness :
    (vectorIngestAll (fun _ => []) (fun _ => "") (fun _ _ => "") emptyVDb
      [corruptPdf, goodPdf]).1.length = [corruptPdf, goodPdf].length ∧
    vectorIngest (fun _ => []) (fun _ => "") (fun _ _ => "") emptyVDb
      corruptPdf = (VIngestResult.extractError, emptyVDb) ∧
    (∃ rs db2, structuralIngestAll emptySDb [goodPdf] =
      Except.ok (rs, db2) ∧ rs.length = [goodPdf].length) :=
  ⟨ingest_batch_isolation_amended.1 (fun _ => []) (fun _ => "")
      (fun _ _ => "") emptyVDb [corruptPdf, goodPdf],
    ingest_batch_isolation_amended.2.1 (fun _ => []) (fun _ => "")
      (fun _ _ => "") emptyVDb corruptPdf rfl,
    ingest_batch_isolation_amended.2.2 emptySDb [goodPdf] (by decide)⟩

/-- C7 counterexample: a batch whose first document is unreadable raises
out of the structural `ingest_all_pdfs` — the batch aborts with no result
array at all (the readable second document is never ingested), refuting
per-document failure isolation for the structural path. -/
theorem ingest_batch_shortcircuit_counterexample :
    structuralIngestAll emptySDb [corruptPdf, goodPdf] = Except.error () := by
  decide

/-! ## C6 — batch embedding with cache -/

/-- Filtering an enumeration on the element and projecting the element
back equals filtering the list. -/
theorem enumFrom_filter_map_snd {α : Type} (q : α → Bool) :
    ∀ (n : Nat) (l : List α),
      ((List.enumFrom n l).filter (fun p => q p.2)).map Prod.snd =
        l.filter q := by
  intro n l
  induction l generalizing n with
  | nil => rfl
  | cons a as ih =>
    simp only [List.enumFrom_cons, List.filter_cons]
    cases hq : q a <;> simp [hq, ih]

/-- Indexing into a map over an enumeration. -/
theorem enum_map_getD {α β : Type} (f : Nat × α → β) (l : List α) (i : Nat)
    (h : i < l.length) (d : β) (d0 : α) :
    (l.enum.map f).getD i d = f (i, l.getD i d0) := by
  have h1 : i < (l.enum.map f).length := by
    simpa [List.enum_length] using h
  rw [List.getD_eq_getElem _ _ h1, List.getElem_map, List.getElem_enum,
    List.getD_eq_getElem _ _ h]

/-- Looking a text up after a cache write. -/
theorem cacheGet_cacheSet (cache : List (String × String)) (u e t : String) :
    cacheGet (cacheSet cache u e) t =
      if embKey u = embKey t then some e else cacheGet cache t := by
  unfold cacheSet cacheGet
  induction cache with
  | nil =>
    simp only [setAssoc, List.find?]
    cases h : embKey u == embKey t with
    | true => simp [beq_iff_eq.mp h]
    | false =>
      have : ¬ embKey u = embKey t := by simpa using h
      simp [h, this]
  | cons kv rest ih =>
    obtain ⟨k0, v0⟩ := kv
    simp only [setAssoc]
    cases hk : k0 == embKey u with
    | true =>
      have hk0 : k0 = embKey u := beq_iff_eq.mp hk
      subst hk0
      cases ht : embKey u == embKey t with
      | true =>
        have := beq_iff_eq.mp ht
        simp [List.find?, ht, this]
      | false =>
        have hne : ¬ embKey u = embKey t := by simpa using ht
        simp [List.find?, ht, hne]
    | false =>
      cases ht : k0 == embKey t with
      | true =>
        have hk0 : k0 = embKey t := beq_iff_eq.mp ht
        have hne : ¬ embKey u = embKey t := by
          intro hh
          rw [hh] at hk
          rw [hk0] at hk
          simp at hk
        simp [List.find?, ht, hne]
      | false =>
        simp only [List.find?, ht]
        exact ih

/-- A fold of cache writes keeps existing entries and makes every written
text present. -/
theorem cacheGet_foldl_isSome (computed : List (Nat × String × String)) :
    ∀ (cache : List (String × String)) (t : String),
      ((cacheGet cache t).isSome ∨ ∃ q ∈ computed, embKey q.2.1 = embKey t) →
      (cacheGet
        (computed.foldl (fun c q => cacheSet c q.2.1 q.2.2) cache) t).isSome := by
  induction computed with
  | nil =>
    intro cache t h
    rcases h with h | ⟨q, hq, _⟩
    · exact h
    · cases hq
  | cons q0 rest ih =>
    intro cache t h
    simp only [List.foldl_cons]
    apply ih
    rw [cacheGet_cacheSet]
    by_cases he : embKey q0.2.1 = embKey t
    · left
      simp [he]
    · rcases h with h | ⟨q, hq, hqe⟩
      · left
        simpa [he] using h
      · rcases List.mem_cons.mp hq with rfl | hq2
        · exact absurd hqe he
        · exact Or.inr ⟨q, hq2, hqe⟩

/-- C6 (amended): the batch path sends exactly the cache-missed positions
(in input order) as the one combined oracle request — in-batch duplicates
are not deduplicated, so the request size is N minus cache hits, not N
minus hits minus duplicates; the returned list has length N; each cache-hit
position is answered from the cache; and every missed text is present in
the cache afterwards.  Two identical uncached inputs are both sent and get
the oracle answers for their two request positions (equal only when the
oracle answers both positions identically). -/
theorem batch_embedding_amended (oracle : Nat → String → String)
    (cache : List (String × String)) (texts : List String) :
    (getEmbeddingsBatch oracle cache texts).embeddings.length =
      texts.length ∧
    (getEmbeddingsBatch oracle cache texts).sentTexts =
      texts.filter (fun t => (cacheGet cache t).isNone) ∧
    (∀ i, i < texts.length → ∀ e,
      cacheGet cache (texts.getD i "") = some e →
      (getEmbeddingsBatch oracle cache texts).embeddings.getD i "" = e) ∧
    (∀ t ∈ texts, (cacheGet cache t).isNone = true →
      (cacheGet (getEmbeddingsBatch oracle cache texts).cache t).isSome) := by
  have hfilter :
      (texts.enum.filter (fun p => (cacheGet cache p.2).isNone)).map
        Prod.snd = texts.filter (fun t => (cacheGet cache t).isNone) := by
    rw [show texts.enum = List.enumFrom 0 texts from rfl]
    exact enumFrom_filter_map_snd (fun t => (cacheGet cache t).isNone) 0 texts
  unfold getEmbeddingsBatch
  by_cases hc :
      (texts.enum.filter (fun p => (cacheGet cache p.2).isNone)).isEmpty
  · have hnil : texts.filter (fun t => (cacheGet cache t).isNone) = [] := by
      rw [← hfilter, List.isEmpty_iff.mp hc]
      rfl
    rw [if_pos hc]
    dsimp only
    refine ⟨by simp, hnil.symm, ?_, ?_⟩
    · intro i hi e he
      have h1 : i < (texts.map fun t => (cacheGet cache t).getD "").length :=
        by simpa using hi
      rw [List.getD_eq_getElem _ _ h1, List.getElem_map,
        ← List.getD_eq_getElem texts "" hi, he]
      rfl
    · intro t ht hnone
      exfalso
      have : t ∈ texts.filter (fun t => (cacheGet cache t).isNone) :=
        List.mem_filter.mpr ⟨ht, hnone⟩
      rw [hnil] at this
      cases this
  · rw [if_neg (by simpa using hc)]
    dsimp only
    refine ⟨by simp [List.enum_length], hfilter, ?_, ?_⟩
    · intro i hi e he
      rw [enum_map_getD _ texts i hi "" ""]
      simp only [he]
    · intro t ht hnone
      apply cacheGet_foldl_isSome
      right
      obtain ⟨i, hi⟩ := List.get?_of_mem ht
      have hmem : (i, t) ∈ texts.enum :=
        List.mk_mem_enum_iff_get?.mpr hi
      have hmemf :
          (i, t) ∈ texts.enum.filter (fun p => (cacheGet cache p.2).isNone) :=
        List.mem_filter.mpr ⟨hmem, hnone⟩
      obtain ⟨j, hj⟩ := List.get?_of_mem hmemf
      have hmem2 :
          (j, (i, t)) ∈
            (texts.enum.filter (fun p => (cacheGet cache p.2).isNone)).enum :=
        List.mk_mem_enum_iff_get?.mpr hj
      refine ⟨(i, t, oracle j t), ?_, rfl⟩
      exact List.mem_map_of_mem _ hmem2


/-- C6 counterexample: a batch of two identical uncached strings sends BOTH
occurrences to the oracle (`sentTexts` has length 2, not the claimed
N − cacheHits − duplicates = 1), and when the oracle answers the two
request positions differently the two returned vectors differ, refuting
both the dedup count and the equal-vectors part. -/
theorem batch_dedup_counterexample :
    getEmbeddingsBatch posOracle [] ["a", "a"] =
      ⟨["[1]", "[2]"], [("a", "[2]")], ["a", "a"]⟩ ∧
    ("[1]" : String) ≠ "[2]" := by decide

/-- Witness for `batch_embedding_amended` on a concrete cache and batch. -/
theorem batch_embedding_amended_witness :
    (getEmbeddingsBatch posOracle [("b", "[9]")] ["b", "a"]).embeddings.length =
      ("b" :: "a" :: []).length ∧
    (getEmbeddingsBatch posOracle [("b", "[9]")] ["b", "a"]).embeddings.getD
      0 "" = "[9]" ∧
    (cacheGet (getEmbeddingsBatch posOracle [("b", "[9]")] ["b", "a"]).cache
      "a").isSome :=
  ⟨(batch_embedding_amended posOracle [("b", "[9]")] ["b", "a"]).1,
    (batch_embedding_amended posOracle [("b", "[9]")] ["b", "a"]).2.2.1 0
      (by decide) "[9]" (by decide),
    (batch_embedding_amended posOracle [("b", "[9]")] ["b", "a"]).2.2.2 "a"
      (by decide) (by decide)⟩

/-! ## C10 — chunking -/

/-- The chunking loop stops at or beyond the end of the token list. -/
theorem createChunksAux_past_end (decode : List Nat → String)
    (tokens : List Nat) (start : Nat) (h : tokens.length ≤ start) :
    createChunksAux decode tokens start = [] := by
  rw [createChunksAux.eq_def, dif_neg (by omega)]

/-- A non-empty tail of emitted chunks means the window start is still
inside the token list. -/
theorem createChunksAux_lt_of_ne_nil (decode : List Nat → String)
    (tokens : List Nat) (start : Nat)
    (h : createChunksAux decode tokens start ≠ []) : start < tokens.length := by
  by_contra hlt
  exact h (createChunksAux_past_end decode tokens start (by omega))

/-- Two or more emitted chunks from `start` mean the next window start is
still inside the token list. -/
theorem createChunksAux_two_lt (decode : List Nat → String)
    (tokens : List Nat) (start : Nat)
    (h : 2 ≤ (createChunksAux decode tokens start).length) :
    start + CHUNK_SIZE - CHUNK_OVERLAP < tokens.length := by
  rw [createChunksAux.eq_def] at h
  by_cases hx : start < tokens.length
  · rw [dif_pos hx] at h
    apply createChunksAux_lt_of_ne_nil decode tokens
    intro hnil
    by_cases hemp :
        (pyStrip (decode ((tokens.drop start).take CHUNK_SIZE))).data.isEmpty
    · rw [if_pos hemp, hnil] at h
      simp at h
    · rw [if_neg hemp, hnil] at h
      simp at h
  · rw [dif_neg hx] at h
    simp at h

/-- Every emitted chunk except possibly the last two carries a window of
exactly `CHUNK_SIZE` tokens (only the final window, and the window before
it when fewer than `CHUNK_SIZE` tokens remain there, can be short). -/
theorem createChunksAux_window_size (decode : List Nat → String)
    (tokens : List Nat) :
    ∀ (start i : Nat),
      i + 3 ≤ (createChunksAux decode tokens start).length →
      ((createChunksAux decode tokens start).getD i ([], "")).1.length =
        CHUNK_SIZE := by
  intro start
  induction start using createChunksAux.induct decode tokens with
  | case1 x hx hemp ih =>
    intro i hi
    rw [createChunksAux.eq_def, dif_pos hx, if_pos hemp]
    rw [createChunksAux.eq_def, dif_pos hx, if_pos hemp] at hi
    exact ih i hi
  | case2 x hx hemp ih =>
    intro i hi
    rw [createChunksAux.eq_def, dif_pos hx, if_neg hemp]
    rw [createChunksAux.eq_def, dif_pos hx, if_neg hemp] at hi
    cases i with
    | zero =>
      have h2 :
          2 ≤ (createChunksAux decode tokens
            (x + CHUNK_SIZE - CHUNK_OVERLAP)).length := by
        simp only [List.length_cons] at hi
        omega
      have hfar := createChunksAux_two_lt decode tokens _ h2
      simp only [List.getD_cons_zero, List.length_take, List.length_drop]
      simp only [CHUNK_SIZE, CHUNK_OVERLAP] at hfar ⊢
      omega
    | succ j =>
      simp only [List.getD_cons_succ]
      apply ih
      simp only [List.length_cons] at hi
      omega
  | case3 x hx =>
    intro i hi
    rw [createChunksAux.eq_def, dif_neg hx] at hi
    simp at hi

/-- Emitted chunks are non-empty after stripping and never carry more than
`CHUNK_SIZE` tokens. -/
theorem createChunksAux_emitted (decode : List Nat → String)
    (tokens : List Nat) :
    ∀ (start : Nat), ∀ p ∈ createChunksAux decode tokens start,
      p.2 ≠ "" ∧ p.1.length ≤ CHUNK_SIZE := by
  intro start
  induction start using createChunksAux.induct decode tokens with
  | case1 x hx hemp ih =>
    intro p hp
    rw [createChunksAux.eq_def, dif_pos hx, if_pos hemp] at hp
    exact ih p hp
  | case2 x hx hemp ih =>
    intro p hp
    rw [createChunksAux.eq_def, dif_pos hx, if_neg hemp] at hp
    rcases List.mem_cons.mp hp with rfl | hp2
    · refine ⟨?_, ?_⟩
      · intro hq
        apply hemp
        have hq2 : pyStrip (decode ((tokens.drop x).take CHUNK_SIZE)) = "" := hq
        rw [hq2]
        rfl
      · simp only [List.length_take]
        exact min_le_left _ _
    · exact ih p hp2
  | case3 x hx =>
    intro p hp
    rw [createChunksAux.eq_def, dif_neg hx] at hp
    cases hp

/-- C10 (amended): chunking terminates because the window start strictly
advances by `CHUNK_SIZE − CHUNK_OVERLAP = 450` tokens per iteration (this
is the decreasing measure under which `createChunksAux` is defined, and
the overlap constant is strictly smaller than the window constant); every
emitted chunk is non-empty after whitespace stripping and carries at most
`CHUNK_SIZE` tokens; and every chunk except possibly the LAST TWO carries
exactly `CHUNK_SIZE` tokens — the second-to-last window is short whenever
between 451 and 499 tokens remain at its start, so exactness for all but
the last chunk fails (see the counterexample). -/
theorem chunking_amended :
    CHUNK_OVERLAP < CHUNK_SIZE ∧ CHUNK_SIZE - CHUNK_OVERLAP = 450 ∧
    (∀ (decode : List Nat → String) (tokens : List Nat),
      ∀ p ∈ createChunksPairs decode tokens,
        p.2 ≠ "" ∧ p.1.length ≤ CHUNK_SIZE) ∧
    (∀ (decode : List Nat → String) (tokens : List Nat) (i : Nat),
      i + 3 ≤ (createChunksPairs decode tokens).length →
      ((createChunksPairs decode tokens).getD i ([], "")).1.length =
        CHUNK_SIZE) :=
  ⟨by decide, by decide,
    fun decode tokens => createChunksAux_emitted decode tokens 0,
    fun decode tokens => createChunksAux_window_size decode tokens 0⟩

/-- Emitted chunk list on 1360 uniform tokens: four windows, of 500, 500,
460 and 10 tokens. -/
theorem createChunksPairs_long :
    createChunksPairs decOne (List.replicate 1360 0) =
      [(List.replicate 500 0, "x"), (List.replicate 500 0, "x"),
        (List.replicate 460 0, "x"), (List.replicate 10 0, "x")] := by
  unfold createChunksPairs
  rw [createChunksAux.eq_def, dif_pos (by decide), if_neg (by decide)]
  rw [createChunksAux.eq_def, dif_pos (by decide), if_neg (by decide)]
  rw [createChunksAux.eq_def, dif_pos (by decide), if_neg (by decide)]
  rw [createChunksAux.eq_def, dif_pos (by decide), if_neg (by decide)]
  rw [createChunksAux.eq_def, dif_neg (by decide)]
  decide

/-- Witness for `chunking_amended` on concrete token lists. -/
theorem chunking_amended_witness :
    ((List.replicate 500 0, "x").2 ≠ "" ∧
      (List.replicate 500 0, "x").1.length ≤ CHUNK_SIZE) ∧
    ((createChunksPairs decOne (List.replicate 1360 0)).getD 0
      ([], "")).1.length = CHUNK_SIZE := by
  constructor
  · apply chunking_amended.2.2.1 decOne (List.replicate 1360 0)
    rw [createChunksPairs_long]
    exact List.mem_cons_self _ _
  · apply chunking_amended.2.2.2 decOne (List.replicate 1360 0) 0
    rw [createChunksPairs_long]
    decide

/-- C10 counterexample: on 460 uniform tokens the loop emits two chunks —
the FIRST window holds only 460 tokens (fewer than `CHUNK_SIZE = 500`)
although it is not the last chunk, refuting the claim that every chunk
except possibly the last contains exactly `CHUNK_SIZE` tokens. -/
theorem chunk_exact_size_counterexample :
    (createChunksPairs decOne (List.replicate 460 0)).map
      (fun p => p.1.length) = [460, 10] ∧
    createChunks decOne (List.replicate 460 0) = ["x", "x"] := by
  have h : createChunksPairs decOne (List.replicate 460 0) =
      [(List.replicate 460 0, "x"), (List.replicate 10 0, "x")] := by
    unfold createChunksPairs
    rw [createChunksAux.eq_def, dif_pos (by decide), if_neg (by decide)]
    rw [createChunksAux.eq_def, dif_pos (by decide), if_neg (by decide)]
    rw [createChunksAux.eq_def, dif_neg (by decide)]
    decide
  refine ⟨?_, ?_⟩
  · rw [h]
    decide
  · unfold createChunks
    rw [h]
    decide

/-! ## C2 — tree invariant of the two extraction strategies -/

/-- Strictly backward parent links rule out a node being its own
ancestor. -/
theorem noSelfAncestor_of_backlinks (ns : List DocNode)
    (h : ∀ n ∈ ns, ∀ p, n.parent_id = some p → p < n.order_index) :
    noSelfAncestor ns := by
  intro n hn
  have key : ∀ a b : DocNode, Relation.TransGen (parentStep ns) a b →
      a.order_index < b.order_index := by
    intro a b hab
    induction hab with
    | single hstep =>
      rcases hstep with ⟨_, hb, hp⟩
      exact h _ hb _ hp
    | tail _ hstep ih =>
      rcases hstep with ⟨_, hb, hp⟩
      exact lt_trans ih (h _ hb _ hp)
  exact absurd (key n n hn) (lt_irrefl _)

/-- Membership from `getLast?`. -/
theorem mem_of_getLastEq {α : Type} (l : List α) (a : α)
    (h : l.getLast? = some a) : a ∈ l := by
  obtain ⟨hne, heq⟩ :=
    List.mem_getLast?_eq_getLast (show a ∈ l.getLast? from h)
  rw [heq]
  exact List.getLast_mem hne

/-- Appending one node preserves the pattern-extractor invariant when the
new node is created at the current order counter, links one level up into
the stored nodes, and the pointers are either kept or moved to the new
node at the matching level. -/
theorem patInv_addNode (st : PatState) (node : DocNode)
    (newCh newSec : Option Nat)
    (hord : node.order_index = st.order)
    (hpar : ∀ p, node.parent_id = some p →
      ∃ pn ∈ st.nodes, pn.order_index = p ∧ node.level = pn.level + 1)
    (hch : ∀ p, newCh = some p →
      st.curCh = some p ∨ (p = st.order ∧ node.level = 1))
    (hsec : ∀ p, newSec = some p →
      st.curSec = some p ∨ (p = st.order ∧ node.level = 2))
    (h : patInv st) :
    patInv ⟨st.nodes ++ [node], st.order + 1, newCh, newSec⟩ := by
  obtain ⟨h1, h2, h3, h4⟩ := h
  refine ⟨?_, ?_, ?_, ?_⟩
  · intro n hn
    rcases List.mem_append.mp hn with hn | hn
    · have := h1 n hn
      simp only
      omega
    · rw [List.mem_singleton.mp hn]
      simp only
      omega
  · intro n hn p hp
    rcases List.mem_append.mp hn with hn | hn
    · obtain ⟨hlt, pn, hpn, hoi, hlev⟩ := h2 n hn p hp
      exact ⟨hlt, pn, List.mem_append_left _ hpn, hoi, hlev⟩
    · rw [List.mem_singleton.mp hn] at hp ⊢
      obtain ⟨pn, hpn, hoi, hlev⟩ := hpar p hp
      have hplt : p < st.order := by
        have := h1 pn hpn
        omega
      exact ⟨by omega, pn, List.mem_append_left _ hpn, hoi, hlev⟩
  · intro p hp
    rcases hch p hp with hold | ⟨hpnew, hlev⟩
    · obtain ⟨pn, hpn, hoi, hl⟩ := h3 p hold
      exact ⟨pn, List.mem_append_left _ hpn, hoi, hl⟩
    · refine ⟨node, List.mem_append_right _ (List.mem_singleton_self _), ?_, hlev⟩
      omega
  · intro p hp
    rcases hsec p hp with hold | ⟨hpnew, hlev⟩
    · obtain ⟨pn, hpn, hoi, hl⟩ := h4 p hold
      exact ⟨pn, List.mem_append_left _ hpn, hoi, hl⟩
    · refine ⟨node, List.mem_append_right _ (List.mem_singleton_self _), ?_, hlev⟩
      omega

/-- One line of the pattern scan preserves the extractor invariant. -/
theorem patLineStep_inv (pageNum : Nat) (st : PatState) (pc : List String)
    (raw : List Char) (h : patInv st) :
    patInv (patLineStep pageNum (st, pc) raw).1 := by
  obtain ⟨h1, h2, h3, h4⟩ := h
  unfold patLineStep
  by_cases hemp : (pyStripL raw).isEmpty
  · rw [if_pos hemp]
    exact ⟨h1, h2, h3, h4⟩
  · rw [if_neg hemp]
    cases hnt : lineNodeType (pyStripL raw) with
    | none => exact ⟨h1, h2, h3, h4⟩
    | some nt =>
      dsimp only
      cases nt
      -- document
      · dsimp only
        apply patInv_addNode st _ _ _ rfl
        · intro p hp
          cases hp
        · intro p hp
          rw [if_neg (by decide)] at hp
          exact Or.inl hp
        · intro p hp
          rw [if_neg (by decide)] at hp
          exact Or.inl hp
        · exact ⟨h1, h2, h3, h4⟩
      -- chapter
      · dsimp only
        apply patInv_addNode st _ _ _ rfl
        · intro p hp
          cases hp
        · intro p hp
          rw [if_pos rfl] at hp
          right
          exact ⟨(Option.some.inj hp).symm, rfl⟩
        · intro p hp
          rw [if_neg (by decide)] at hp
          exact Or.inl hp
        · exact ⟨h1, h2, h3, h4⟩
      -- section
      · dsimp only
        apply patInv_addNode st _ _ _ rfl
        · intro p hp
          obtain ⟨pn, hpn, hoi, hl⟩ := h3 p hp
          refine ⟨pn, hpn, hoi, ?_⟩
          show 2 = pn.level + 1
          omega
        · intro p hp
          rw [if_neg (by decide)] at hp
          exact Or.inl hp
        · intro p hp
          rw [if_pos rfl] at hp
          right
          exact ⟨(Option.some.inj hp).symm, rfl⟩
        · exact ⟨h1, h2, h3, h4⟩
      -- subsection
      · dsimp only
        apply patInv_addNode st _ _ _ rfl
        · intro p hp
          obtain ⟨pn, hpn, hoi, hl⟩ := h4 p hp
          refine ⟨pn, hpn, hoi, ?_⟩
          show 3 = pn.level + 1
          omega
        · intro p hp
          rw [if_neg (by decide)] at hp
          exact Or.inl hp
        · intro p hp
          rw [if_neg (by decide)] at hp
          exact Or.inl hp
        · exact ⟨h1, h2, h3, h4⟩
      -- page
      · dsimp only
        apply patInv_addNode st _ _ _ rfl
        · intro p hp
          cases hp
        · intro p hp
          rw [if_neg (by decide)] at hp
          exact Or.inl hp
        · intro p hp
          rw [if_neg (by decide)] at hp
          exact Or.inl hp
        · exact ⟨h1, h2, h3, h4⟩
      -- appendix
      · dsimp only
        apply patInv_addNode st _ _ _ rfl
        · intro p hp
          cases hp
        · intro p hp
          rw [if_neg (by decide)] at hp
          exact Or.inl hp
        · intro p hp
          rw [if_neg (by decide)] at hp
          exact Or.inl hp
        · exact ⟨h1, h2, h3, h4⟩
      -- table
      · dsimp only
        apply patInv_addNode st _ _ _ rfl
        · intro p hp
          cases hp
        · intro p hp
          rw [if_neg (by decide)] at hp
          exact Or.inl hp
        · intro p hp
          rw [if_neg (by decide)] at hp
          exact Or.inl hp
        · exact ⟨h1, h2, h3, h4⟩
      -- figure
      · dsimp only
        apply patInv_addNode st _ _ _ rfl
        · intro p hp
          cases hp
        · intro p hp
          rw [if_neg (by decide)] at hp
          exact Or.inl hp
        · intro p hp
          rw [if_neg (by decide)] at hp
          exact Or.inl hp
        · exact ⟨h1, h2, h3, h4⟩

/-- Folding the line scan over a page preserves the invariant. -/
theorem foldl_patLineStep_inv (pageNum : Nat) (lines : List (List Char)) :
    ∀ acc : PatState × List String, patInv acc.1 →
      patInv ((lines.foldl (patLineStep pageNum) acc)).1 := by
  induction lines with
  | nil => exact fun acc h => h
  | cons l rest ih =>
    intro acc h
    simp only [List.foldl_cons]
    exact ih _ (patLineStep_inv pageNum acc.1 acc.2 l h)

/-- The whole page loop preserves the invariant. -/
theorem patPagesLoop_inv (pages : List String) :
    ∀ (st : PatState) (pageNum : Nat), patInv st →
      patInv (patPagesLoop st pageNum pages) := by
  induction pages with
  | nil => exact fun st pageNum h => h
  | cons text rest ih =>
    intro st pageNum h
    rw [patPagesLoop]
    apply ih
    have h2 :
        patInv ((pySplitCharL '\n' text.data).foldl
          (patLineStep pageNum) (st, [])).1 :=
      foldl_patLineStep_inv pageNum _ (st, []) h
    by_cases hany :
        ((pySplitCharL '\n' text.data).foldl
          (patLineStep pageNum) (st, [])).1.nodes.any
            (fun n => n.page_start == pageNum)
    · rw [if_pos hany]
      exact h2
    · rw [if_neg hany]
      apply patInv_addNode _ _ _ _ rfl
      · intro p hp
        cases hp
      · exact fun p hp => Or.inl hp
      · exact fun p hp => Or.inl hp
      · exact h2

/-- The pattern strategy keeps child links consistent and acyclic (roots
are NOT forced to level 0 — see the counterexample). -/
theorem extractByPatterns_ok (pages : List String) :
    childLinksOk (extractByPatterns pages) ∧
    noSelfAncestor (extractByPatterns pages) := by
  have hinit : patInv ⟨[], 0, none, none⟩ := by
    refine ⟨?_, ?_, ?_, ?_⟩
    · intro n hn
      cases hn
    · intro n hn
      cases hn
    · intro p hp
      cases hp
    · intro p hp
      cases hp
  have h := patPagesLoop_inv pages ⟨[], 0, none, none⟩ 1 hinit
  refine ⟨h.2.1, noSelfAncestor_of_backlinks _ ?_⟩
  intro n hn p hp
  exact (h.2.1 n hn p hp).1

/-- `outlineParentOk` is monotone under appending nodes. -/
theorem outlineParentOk_append (ns tail : List DocNode) (pi : Option Nat)
    (lvl : Nat) (h : outlineParentOk ns pi lvl) :
    outlineParentOk (ns ++ tail) pi lvl := by
  cases pi with
  | none => exact h
  | some p =>
    obtain ⟨pn, hpn, h1, h2⟩ := h
    exact ⟨pn, List.mem_append_left _ hpn, h1, h2⟩

/-- Appending one node with a valid parent link preserves the spec tree
invariant. -/
theorem levelInvariant_snoc (ns : List DocNode) (node : DocNode)
    (h : levelInvariant ns)
    (h0 : node.parent_id = none → node.level = 0)
    (hp : ∀ p, node.parent_id = some p →
      ∃ pn ∈ ns, pn.order_index = p ∧ node.level = pn.level + 1) :
    levelInvariant (ns ++ [node]) := by
  intro n hmem
  rcases List.mem_append.mp hmem with hm | hm
  · obtain ⟨ha, hb⟩ := h n hm
    refine ⟨ha, ?_⟩
    intro p hpp
    obtain ⟨pn, hpn, h1, h2⟩ := hb p hpp
    exact ⟨pn, List.mem_append_left _ hpn, h1, h2⟩
  · rw [List.mem_singleton.mp hm]
    refine ⟨h0, ?_⟩
    intro p hpp
    obtain ⟨pn, hpn, h1, h2⟩ := hp p hpp
    exact ⟨pn, List.mem_append_left _ hpn, h1, h2⟩

/-- Invariant preservation of the outline walk: starting from a valid
accumulator, a valid parent argument and (under the pypdf outline shape) a
last-node certificate when required, the walk only appends nodes and keeps
the accumulator valid. -/
theorem processOutline_inv (items : List OutlineItem)
    (parentIdx : Option Nat) (level : Nat) (ns : List DocNode)
    (order : Nat) :
    ∀ flag : Bool,
      outlineWFAux items flag = true →
      outlineInv ns order →
      outlineParentOk ns parentIdx level →
      (flag = true → ∃ last, ns.getLast? = some last ∧ last.level = level) →
      ∃ tail,
        (processOutline items parentIdx level ns order).1 = ns ++ tail ∧
        outlineInv (processOutline items parentIdx level ns order).1
          (processOutline items parentIdx level ns order).2 := by
  induction items, parentIdx, level, ns, order using processOutline.induct with
  | case1 parentIdx level ns order =>
    intro flag hwf hinv hpo hflag
    exact ⟨[], by simp [processOutline], by simpa [processOutline] using hinv⟩
  | case2 title page rest parentIdx level ns order ih =>
    intro flag hwf hinv hpo hflag
    rw [outlineWFAux] at hwf
    obtain ⟨hb1, hb2, hb3⟩ := hinv
    have hinv2 :
        outlineInv
          (ns ++ [⟨parentIdx, detectNodeType title level, title, "", page,
            page, level, order, []⟩]) (order + 1) := by
      refine ⟨?_, ?_, ?_⟩
      · intro n hn
        rcases List.mem_append.mp hn with hn | hn
        · have := hb1 n hn
          omega
        · rw [List.mem_singleton.mp hn]
          simp only
          omega
      · apply levelInvariant_snoc _ _ hb2
        · intro hp0
          cases hpi : parentIdx with
          | none =>
            rw [hpi] at hpo
            exact hpo
          | some p =>
            rw [hpi] at hp0
            cases hp0
        · intro p hpp
          simp only at hpp
          rw [hpp] at hpo
          obtain ⟨pn, hpn, h1, h2⟩ := hpo
          refine ⟨pn, hpn, h1, ?_⟩
          show level = pn.level + 1
          omega
      · intro n hn p hpp
        rcases List.mem_append.mp hn with hn | hn
        · exact hb3 n hn p hpp
        · rw [List.mem_singleton.mp hn] at hpp ⊢
          simp only at hpp ⊢
          rw [hpp] at hpo
          obtain ⟨pn, hpn, h1, h2⟩ := hpo
          have := hb1 pn hpn
          show p < order
          omega
    have hpo2 :
        outlineParentOk
          (ns ++ [⟨parentIdx, detectNodeType title level, title, "", page,
            page, level, order, []⟩]) parentIdx level :=
      outlineParentOk_append _ _ _ _ hpo
    obtain ⟨tail, ht1, ht2⟩ := ih true hwf hinv2 hpo2
      (fun _ => ⟨_, List.getLast?_concat _, rfl⟩)
    refine ⟨⟨parentIdx, detectNodeType title level, title, "", page, page,
      level, order, []⟩ :: tail, ?_, ?_⟩
    · rw [processOutline, ht1, List.append_assoc]
      rfl
    · rw [processOutline]
      exact ht2
  | case3 sub rest parentIdx level ns order hlast ih =>
    intro flag hwf hinv hpo hflag
    rw [outlineWFAux] at hwf
    simp only [Bool.and_eq_true] at hwf
    obtain ⟨⟨hfl, _⟩, _⟩ := hwf
    obtain ⟨last, hl, _⟩ := hflag hfl
    rw [hlast] at hl
    cases hl
  | case4 sub rest parentIdx level ns order last hlast acc ihsub ihrest =>
    intro flag hwf hinv hpo hflag
    rw [outlineWFAux] at hwf
    simp only [Bool.and_eq_true] at hwf
    obtain ⟨⟨hfl, hsub⟩, hrest⟩ := hwf
    obtain ⟨last2, hl2, hlev2⟩ := hflag hfl
    rw [hlast] at hl2
    have hlevlast : last.level = level := by
      rw [← Option.some.inj hl2] at hlev2
      exact hlev2
    have hposub : outlineParentOk ns (some last.order_index) (level + 1) :=
      ⟨last, mem_of_getLastEq _ _ hlast, rfl, by rw [hlevlast]⟩
    obtain ⟨tail1, ha1, ha2⟩ := ihsub false hsub hinv hposub
      (fun hf => absurd hf (by simp))
    have hpo3 :
        outlineParentOk
          (processOutline sub (some last.order_index) (level + 1) ns
            order).1 parentIdx level := by
      rw [ha1]
      exact outlineParentOk_append _ _ _ _ hpo
    obtain ⟨tail2, hc1, hc2⟩ := ihrest false hrest ha2 hpo3
      (fun hf => absurd hf (by simp))
    refine ⟨tail1 ++ tail2, ?_, ?_⟩
    · rw [processOutline, hlast]
      dsimp only
      rw [hc1, ha1, List.append_assoc]
    · rw [processOutline, hlast]
      exact hc2

/-- The outline strategy satisfies the full tree invariant for outlines of
the shape the PDF reader produces. -/
theorem extractFromOutline_invariant (outline : List OutlineItem)
    (hwf : outlineWFAux outline false = true) :
    levelInvariant (extractFromOutline outline) ∧
    noSelfAncestor (extractFromOutline outline) := by
  have hinit : outlineInv [] 0 := by
    refine ⟨?_, ?_, ?_⟩
    · intro n hn
      cases hn
    · intro n hn
      cases hn
    · intro n hn
      cases hn
  obtain ⟨tail, h1, h2⟩ :=
    processOutline_inv outline none 0 [] 0 false hwf hinit rfl
      (fun hf => absurd hf (by simp))
  exact ⟨h2.2.1, noSelfAncestor_of_backlinks _ h2.2.2⟩

/-- C2 (amended): outline-based extraction (for outlines of the pypdf
shape, where each nested child list directly follows its parent entry)
satisfies the full invariant — parentless nodes at level 0, children one
level below their parent, no node its own ancestor.  Pattern-based
extraction guarantees the child half — every parent link points strictly
backwards to a stored node one level up, so no node is its own ancestor —
but NOT root level 0: chapter, appendix, table and figure roots are
created at level 1 (see the counterexample). -/
theorem extraction_tree_invariant_amended :
    (∀ outline : List OutlineItem, outlineWFAux outline false = true →
      levelInvariant (extractFromOutline outline) ∧
      noSelfAncestor (extractFromOutline outline)) ∧
    (∀ pages : List String,
      childLinksOk (extractByPatterns pages) ∧
      noSelfAncestor (extractByPatterns pages)) :=
  ⟨extractFromOutline_invariant, extractByPatterns_ok⟩

/-- Witness for `extraction_tree_invariant_amended` on a concrete outline
and a concrete page. -/
theorem extraction_tree_invariant_amended_witness :
    outlineWFAux wOutline false = true ∧
    (levelInvariant (extractFromOutline wOutline) ∧
      noSelfAncestor (extractFromOutline wOutline)) ∧
    (childLinksOk (extractByPatterns ["CAPÍTULO 1"]) ∧
      noSelfAncestor (extractByPatterns ["CAPÍTULO 1"])) := by
  have hwf : outlineWFAux wOutline false = true := by
    simp [wOutline, outlineWFAux]
  exact ⟨hwf, extraction_tree_invariant_amended.1 wOutline hwf,
    extraction_tree_invariant_amended.2 ["CAPÍTULO 1"]⟩

/-- C2 counterexample: a page whose text is the chapter heading produces a
single parentless node at level 1, not 0, refuting the root half of the
invariant for the pattern strategy. -/
theorem patterns_root_level_counterexample :
    extractByPatterns ["CAPÍTULO 1"] =
      [⟨none, NodeType.chapter, "CAPÍTULO 1", "", 1, 1, 1, 0, []⟩] ∧
    ¬ levelInvariant (extractByPatterns ["CAPÍTULO 1"]) := by
  have h : extractByPatterns ["CAPÍTULO 1"] =
      [⟨none, NodeType.chapter, "CAPÍTULO 1", "", 1, 1, 1, 0, []⟩] := by
    decide
  refine ⟨h, ?_⟩
  intro hinv
  have := (hinv ⟨none, NodeType.chapter, "CAPÍTULO 1", "", 1, 1, 1, 0, []⟩
    (by rw [h]; exact List.mem_singleton_self _)).1 rfl
  cases this

end QuickVet
